import Mathlib

/-!
Verification development for the chat-log parser core of the
`digitarald/vscode-chat-logs` repository.

The TypeScript sources are shallowly embedded:

* JavaScript JSON values are the inductive `Json` below; `JSON.parse` is
  `jsonParse`, a recursive-descent parser over the raw input string.
  Number literals are modelled with integer values (fraction and exponent
  syntax is accepted but the stored value is the integer part): no claim
  depends on non-integer numeric values.
* JavaScript dynamic semantics used by the parsers (truthiness, property
  access that throws on `null`/`undefined`, `for..of` iteration,
  string coercion) are modelled by the `js*` helpers; exceptions are the
  `Except Unit` monad and each parser's `try/catch` is the final `match`.
* Each regular expression of the source is modelled by a dedicated
  recognizer function whose semantics follows the JavaScript regex on the
  inputs the parsers see (leftmost match, lazy/greedy groups as written).
-/

/-- A JavaScript JSON value (the result of `JSON.parse`). -/
inductive Json where
  | null : Json
  | bool : Bool → Json
  | num : Int → Json
  | str : String → Json
  | arr : List Json → Json
  | obj : List (String × Json) → Json
deriving Inhabited

/-- JSON whitespace accepted by `JSON.parse` (space, tab, LF, CR). -/
def jsonWs (c : Char) : Bool :=
  c = ' ' || c = '\t' || c = '\n' || c = '\r'

/-- Whitespace class used for the JavaScript `\s` regex class and `trim`
on the inputs we model (ASCII whitespace). -/
def jsWsChar (c : Char) : Bool :=
  c = ' ' || c = '\t' || c = '\n' || c = '\r' || c = '\x0b' || c = '\x0c'

/-- JavaScript `String.prototype.trim` (modelled on ASCII whitespace). -/
def jsTrim (s : String) : String :=
  String.mk (((s.data.dropWhile jsWsChar).reverse.dropWhile jsWsChar).reverse)

/-- `String.prototype.startsWith`, computed on the character list. -/
def strStartsWith (s p : String) : Bool := p.data.isPrefixOf s.data

/-- ASCII `toLowerCase`, computed on the character list. -/
def strToLower (s : String) : String := String.mk (s.data.map Char.toLower)

/-- Drop the first `n` characters of a string. -/
def strDrop (s : String) (n : Nat) : String := String.mk (s.data.drop n)

/-- Greedy left-to-right split on a nonempty separator (JavaScript
`String.prototype.split` with a string separator), with fuel. -/
def splitOnCore (sep : List Char) : Nat → List Char → List Char → List (List Char)
  | _, [], acc => [acc.reverse]
  | 0, cs, acc => [acc.reverse ++ cs]
  | Nat.succ n, c :: rest, acc =>
    if sep.isPrefixOf (c :: rest) && !sep.isEmpty then
      acc.reverse :: splitOnCore sep n ((c :: rest).drop sep.length) []
    else splitOnCore sep n rest (c :: acc)

/-- JavaScript `String.prototype.split` on a string separator. -/
def strSplitOn (s sep : String) : List String :=
  (splitOnCore sep.data s.data.length s.data []).map String.mk

/-- Drop JSON whitespace. -/
def dropJsonWs (cs : List Char) : List Char := cs.dropWhile jsonWs

/-- Parse the body of a JSON string literal after the opening quote.
Returns the decoded characters and the remaining input after the closing
quote. -/
def parseJStr : List Char → Option (List Char × List Char)
  | [] => none
  | '"' :: rest => some ([], rest)
  | '\\' :: rest =>
    match rest with
    | [] => none
    | e :: rest2 =>
      let dec : Option Char :=
        if e = '"' then some '"'
        else if e = '\\' then some '\\'
        else if e = '/' then some '/'
        else if e = 'b' then some '\x08'
        else if e = 'f' then some '\x0c'
        else if e = 'n' then some '\n'
        else if e = 'r' then some '\r'
        else if e = 't' then some '\t'
        else none
      match dec with
      | some c =>
        match parseJStr rest2 with
        | some (cs, r) => some (c :: cs, r)
        | none => none
      | none =>
        if e = 'u' then
          match rest2 with
          | h1 :: h2 :: h3 :: h4 :: rest3 =>
            let isHexDig (c : Char) : Bool :=
              c.isDigit || ('a' ≤ c && c ≤ 'f') || ('A' ≤ c && c ≤ 'F')
            if isHexDig h1 && isHexDig h2 && isHexDig h3 && isHexDig h4 then
              let hv (c : Char) : Nat :=
                if c.isDigit then c.toNat - 48
                else if c ≥ 'a' then c.toNat - 87 else c.toNat - 55
              let n := ((hv h1 * 16 + hv h2) * 16 + hv h3) * 16 + hv h4
              match parseJStr rest3 with
              | some (cs, r) => some (Char.ofNat n :: cs, r)
              | none => none
            else none
          | _ => none
        else none
  | c :: rest =>
    if c.toNat < 32 then none
    else
      match parseJStr rest with
      | some (cs, r) => some (c :: cs, r)
      | none => none

/-- Parse a JSON number literal (integer value; fraction/exponent syntax
is accepted and ignored for the value). -/
def parseJNum (cs : List Char) : Option (Int × List Char) :=
  let (neg, cs1) :=
    match cs with
    | '-' :: t => (true, t)
    | _ => (false, cs)
  let ds := cs1.takeWhile Char.isDigit
  let rest := cs1.dropWhile Char.isDigit
  if ds.isEmpty then none
  else if ds.length > 1 && ds.headI = '0' then none
  else
    let iv : Int := Int.ofNat (ds.foldl (fun a c => a * 10 + (c.toNat - 48)) 0)
    let v : Int := if neg then -iv else iv
    -- optional fraction
    let step1 : Option (List Char) :=
      match rest with
      | '.' :: t =>
        let fd := t.takeWhile Char.isDigit
        if fd.isEmpty then none else some (t.dropWhile Char.isDigit)
      | _ => some rest
    match step1 with
    | none => none
    | some r1 =>
      match r1 with
      | 'e' :: t | 'E' :: t =>
        let t2 := match t with
          | '+' :: u => u
          | '-' :: u => u
          | _ => t
        let ed := t2.takeWhile Char.isDigit
        if ed.isEmpty then none else some (v, t2.dropWhile Char.isDigit)
      | _ => some (v, r1)

mutual

/-- Recursive-descent JSON value parser (fuel-indexed). -/
def parseJVal : Nat → List Char → Option (Json × List Char)
  | 0, _ => none
  | Nat.succ fuel, cs =>
    let cs := dropJsonWs cs
    match cs with
    | '{' :: rest =>
      let rest2 := dropJsonWs rest
      (match rest2 with
       | '}' :: r => some (Json.obj [], r)
       | _ =>
         match parseJMembers fuel rest2 with
         | some (fs, r) => some (Json.obj fs, r)
         | none => none)
    | '[' :: rest =>
      let rest2 := dropJsonWs rest
      (match rest2 with
       | ']' :: r => some (Json.arr [], r)
       | _ =>
         match parseJItems fuel rest2 with
         | some (xs, r) => some (Json.arr xs, r)
         | none => none)
    | '"' :: rest =>
      (match parseJStr rest with
       | some (s, r) => some (Json.str (String.mk s), r)
       | none => none)
    | 't' :: 'r' :: 'u' :: 'e' :: r => some (Json.bool true, r)
    | 'f' :: 'a' :: 'l' :: 's' :: 'e' :: r => some (Json.bool false, r)
    | 'n' :: 'u' :: 'l' :: 'l' :: r => some (Json.null, r)
    | _ =>
      match parseJNum cs with
      | some (n, r) => some (Json.num n, r)
      | none => none

/-- Parse one or more comma-separated JSON array items up to `]`. -/
def parseJItems : Nat → List Char → Option (List Json × List Char)
  | 0, _ => none
  | Nat.succ fuel, cs =>
    match parseJVal fuel cs with
    | none => none
    | some (v, r) =>
      let r2 := dropJsonWs r
      match r2 with
      | ',' :: r3 =>
        (match parseJItems fuel r3 with
         | some (xs, r4) => some (v :: xs, r4)
         | none => none)
      | ']' :: r3 => some ([v], r3)
      | _ => none

/-- Parse one or more comma-separated JSON object members up to a
closing brace. -/
def parseJMembers : Nat → List Char → Option (List (String × Json) × List Char)
  | 0, _ => none
  | Nat.succ fuel, cs =>
    let cs := dropJsonWs cs
    match cs with
    | '"' :: rest =>
      (match parseJStr rest with
       | none => none
       | some (k, r) =>
         let r2 := dropJsonWs r
         match r2 with
         | ':' :: r3 =>
           (match parseJVal fuel r3 with
            | none => none
            | some (v, r4) =>
              let r5 := dropJsonWs r4
              match r5 with
              | ',' :: r6 =>
                (match parseJMembers fuel r6 with
                 | some (fs, r7) => some ((String.mk k, v) :: fs, r7)
                 | none => none)
              | '}' :: r6 => some ([(String.mk k, v)], r6)
              | _ => none)
         | _ => none)
    | _ => none

end

/-- The embedding of JavaScript `JSON.parse`: `none` models a thrown
`SyntaxError`. -/
def jsonParse (s : String) : Option Json :=
  match parseJVal (s.length + 1) s.data with
  | some (v, rest) => if (dropJsonWs rest).isEmpty then some v else none
  | none => none

/-- Last-occurrence field lookup (JavaScript object literals keep the
last duplicate key, as does `JSON.parse`). -/
def lookupLastField (fs : List (String × Json)) (k : String) : Option Json :=
  fs.foldl (fun acc p => if p.1 = k then some p.2 else acc) none

/-- Property read on a JSON value: `none` models `undefined`.  Reading a
property of a primitive yields `undefined`; `length` of arrays and
strings is materialized. -/
def jsField (v : Json) (k : String) : Option Json :=
  match v with
  | Json.obj fs => lookupLastField fs k
  | Json.arr xs => if k = "length" then some (Json.num xs.length) else none
  | Json.str s => if k = "length" then some (Json.num s.length) else none
  | _ => none

/-- JavaScript truthiness of a possibly-`undefined` value. -/
def jsTruthy : Option Json → Bool
  | none => false
  | some Json.null => false
  | some (Json.bool b) => b
  | some (Json.num n) => n ≠ 0
  | some (Json.str s) => s ≠ ""
  | some (Json.arr _) => true
  | some (Json.obj _) => true

/-- Property access `v.k` that throws a `TypeError` when the receiver is
`undefined` or `null` (the `Except.error` case). -/
def jsAccess (v : Option Json) (k : String) : Except Unit (Option Json) :=
  match v with
  | none => Except.error ()
  | some Json.null => Except.error ()
  | some w => Except.ok (jsField w k)

/-- Optional-chaining access `v?.k`: yields `undefined` instead of
throwing when the receiver is `undefined`/`null`. -/
def jsAccessOpt (v : Option Json) (k : String) : Option Json :=
  match v with
  | none => none
  | some Json.null => none
  | some w => jsField w k

/-- The `for..of` iteration protocol: arrays iterate elements, strings
iterate single-character strings, everything else throws. -/
def jsIterate (v : Option Json) : Except Unit (List Json) :=
  match v with
  | some (Json.arr xs) => Except.ok xs
  | some (Json.str s) => Except.ok (s.data.map (fun c => Json.str (String.mk [c])))
  | _ => Except.error ()

/-- Element list used when a response collection is walked by index
(`items[i]` for `i < items.length`): faithful for arrays and strings;
other receivers produce no iterations (their `length` is `undefined`,
making the loop guard false, except for contrived numeric `length`
fields, which are not modelled). -/
def jsIndexItems (v : Option Json) : List Json :=
  match v with
  | some (Json.arr xs) => xs
  | some (Json.str s) => s.data.map (fun c => Json.str (String.mk [c]))
  | _ => []

/-- JavaScript `String(x)` coercion (fuel-free shallow recursion for
arrays). -/
def jsToString : Json → String
  | Json.null => "null"
  | Json.bool b => if b then "true" else "false"
  | Json.num n => toString n
  | Json.str s => s
  | Json.obj _ => "[object Object]"
  | Json.arr xs =>
    String.intercalate "," (xs.map (fun x =>
      match x with
      | Json.null => ""
      | Json.bool b => if b then "true" else "false"
      | Json.num n => toString n
      | Json.str s => s
      | Json.obj _ => "[object Object]"
      | Json.arr _ => ""))

/-- Coercion of a possibly-`undefined` value into the `String` slot of a
segment or label (only ever applied to strings by well-formed inputs). -/
def jsStrOf : Option Json → String
  | some (Json.str s) => s
  | some v => jsToString v
  | none => "undefined"

/-- `Array.prototype.join(sep)` element coercion (`null` and `undefined`
join as empty strings). -/
def jsJoin (sep : String) (xs : List Json) : String :=
  String.intercalate sep (xs.map (fun v =>
    match v with
    | Json.null => ""
    | v => jsToString v))

/-- String escaping for `JSON.stringify`. -/
def jsonEscape (s : String) : String :=
  String.mk (s.data.foldr (fun c acc =>
    if c = '"' then '\\' :: '"' :: acc
    else if c = '\\' then '\\' :: '\\' :: acc
    else if c = '\n' then '\\' :: 'n' :: acc
    else if c = '\t' then '\\' :: 't' :: acc
    else if c = '\r' then '\\' :: 'r' :: acc
    else c :: acc) [])

mutual

/-- `JSON.stringify(v, null, 2)` (pretty printing with two-space
indent), used by the chatreplay parser to flatten object responses. -/
def jsonStringify2 : Json → Nat → String
  | Json.null, _ => "null"
  | Json.bool b, _ => if b then "true" else "false"
  | Json.num n, _ => toString n
  | Json.str s, _ => "\"" ++ jsonEscape s ++ "\""
  | Json.arr [], _ => "[]"
  | Json.arr xs, indent =>
    let padEnd := String.mk (List.replicate indent ' ')
    "[\n" ++ String.intercalate ",\n" (jsonStringifyItems xs (indent + 2)) ++
      "\n" ++ padEnd ++ "]"
  | Json.obj [], _ => "\x7b\x7d"
  | Json.obj fs, indent =>
    let padEnd := String.mk (List.replicate indent ' ')
    "\x7b\n" ++ String.intercalate ",\n" (jsonStringifyFields fs (indent + 2)) ++
      "\n" ++ padEnd ++ "\x7d"

/-- Renders array items for `jsonStringify2`. -/
def jsonStringifyItems : List Json → Nat → List String
  | [], _ => []
  | x :: t, indent =>
    (String.mk (List.replicate indent ' ') ++ jsonStringify2 x indent) ::
      jsonStringifyItems t indent

/-- Renders object members for `jsonStringify2`. -/
def jsonStringifyFields : List (String × Json) → Nat → List String
  | [], _ => []
  | (k, x) :: t, indent =>
    (String.mk (List.replicate indent ' ') ++ "\"" ++ jsonEscape k ++ "\": " ++
        jsonStringify2 x indent) ::
      jsonStringifyFields t indent

end

/-! ## Generic string-scanning helpers for the regex recognizers -/

/-- All ways to split a character list into `prefixPart ++ suffixPart`,
in ascending order of the split position. -/
def allSplits : List Char → List (List Char × List Char)
  | [] => [([], [])]
  | c :: t => ([], c :: t) :: (allSplits t).map (fun p => (c :: p.1, p.2))

/-- Lazy (leftmost-shortest) split: the first split position whose
suffix is accepted by `f`; models a lazy group followed by the pattern
recognized by `f`. -/
def lazySplit (f : List Char → Option α) (cs : List Char) : Option (List Char × α) :=
  (allSplits cs).findSome? (fun p => (f p.2).map (fun a => (p.1, a)))

/-- Greedy (leftmost-longest) split: the last split position whose
suffix is accepted by `f`; models a greedy group followed by the pattern
recognized by `f`. -/
def greedySplit (f : List Char → Option α) (cs : List Char) : Option (List Char × α) :=
  ((allSplits cs).reverse).findSome? (fun p => (f p.2).map (fun a => (p.1, a)))

/-- Consume a literal string. -/
def litD (pat : String) (cs : List Char) : Option (List Char) :=
  if pat.data.isPrefixOf cs then some (cs.drop pat.length) else none

/-- Consume one-or-more regex whitespace (`\s+`, greedy). -/
def ws1 (cs : List Char) : Option (List Char) :=
  match cs with
  | c :: _ => if jsWsChar c then some (cs.dropWhile jsWsChar) else none
  | [] => none

/-- Consume zero-or-more regex whitespace (`\s*`, greedy). -/
def ws0 (cs : List Char) : List Char := cs.dropWhile jsWsChar

/-- Consume one-or-more digits (`\d+`, greedy), returning them. -/
def digits1 (cs : List Char) : Option (List Char × List Char) :=
  match cs with
  | c :: _ =>
    if c.isDigit then some (cs.takeWhile Char.isDigit, cs.dropWhile Char.isDigit)
    else none
  | [] => none

/-- Numeric value of a digit run (the effect of `parseInt` on the
captured digits of `(\d+)`). -/
def digitsVal (ds : List Char) : Nat :=
  ds.foldl (fun a c => a * 10 + (c.toNat - 48)) 0

/-- Word character class `\w`. -/
def isWordChar (c : Char) : Bool :=
  c.isAlpha || c.isDigit || c = '_'

/-- Does `pat` occur as a substring (String.includes)? -/
def subAt (pat : List Char) : List Char → Bool
  | [] => pat.isEmpty
  | c :: t => pat.isPrefixOf (c :: t) || subAt pat t

/-- JavaScript `String.prototype.includes`. -/
def strIncludes (s pat : String) : Bool := subAt pat.data s.data

/-- Case-insensitive substring test (for `/pat/i.test(s)` with a literal
alternation-free pattern). -/
def strIncludesCI (s pat : String) : Bool :=
  subAt (strToLower pat).data (strToLower s).data

/-- First occurrence of the word-bounded, case-insensitive alternation
`\b(no results|no matches)\b` (the shared zero-result phrasing test). -/
def hasNoResultsPhrase (s : String) : Bool :=
  let low := (strToLower s).data
  let pats := ["no results".data, "no matches".data]
  let rec go (before : Option Char) (cs : List Char) : Bool :=
    (pats.any (fun p =>
      p.isPrefixOf cs &&
      (match before with
       | some b => !isWordChar b
       | none => true) &&
      (match cs.drop p.length with
       | [] => true
       | c :: _ => !isWordChar c))) ||
    (match cs with
     | [] => false
     | c :: t => go (some c) t)
  go none low

/-- First match of `/(\d+)\s+results?/` in `s`, returning the captured
count: the leftmost digit run that is followed by whitespace and the
literal `result`. -/
def countResultsMatch (s : String) : Option Nat :=
  let accept (cs : List Char) : Option Nat :=
    match digits1 cs with
    | none => none
    | some (ds, r1) =>
      match ws1 r1 with
      | none => none
      | some r2 =>
        if "result".data.isPrefixOf r2 then some (digitsVal ds) else none
  (allSplits s.data).findSome? (fun p => accept p.2)

/-! ## Domain model (src/lib/parser/types.ts, runtime shape) -/

/-- Message role. -/
inductive MessageRole where
  | user : MessageRole
  | assistant : MessageRole
deriving DecidableEq, Inhabited

/-- Tool-call categories (`ToolCallType`). -/
inductive ToolCallType where
  | read | search | navigate | click | typ | screenshot | snapshot | run
  | todo | subagent | replace | patch | test | other
deriving DecidableEq, Inhabited

/-- Tool-call status. -/
inductive TCStatus where
  | pending | completed | failed
deriving DecidableEq, Inhabited

/-- A single recorded file edit (`FileEdit`); the `range` is
`(startLine, startColumn, endLine, endColumn)`. -/
structure FileEdit where
  filePath : String
  text : String
  range : Option (Int × Int × Int × Int)
deriving DecidableEq, Inhabited

/-- The scalar fields of a `ToolCall` (everything except the
recursively nested `subAgentCalls`). -/
structure ToolCallCore where
  type : ToolCallType
  action : String
  rawAction : Option String := none
  input : Option Json := none
  output : Option Json := none
  status : Option TCStatus := none
  toolCallId : Option Json := none
  mcpServer : Option Json := none
  screenshot : Option Json := none
  consoleOutput : Option (List String) := none
  pageSnapshot : Option String := none
  fileEdits : Option (List FileEdit) := none
  fromSubAgent : Bool := false
  isSubagentRoot : Bool := false
  normalizedResultCount : Option Nat := none
deriving Inhabited

/-- A `ToolCall`: scalar core plus exclusively-owned nested sub-agent
calls. -/
inductive ToolCall where
  | mk : ToolCallCore → List ToolCall → ToolCall

/-- The scalar core of a tool call. -/
def ToolCall.core : ToolCall → ToolCallCore
  | ToolCall.mk c _ => c

/-- The nested sub-agent calls of a tool call. -/
def ToolCall.subAgentCalls : ToolCall → List ToolCall
  | ToolCall.mk _ s => s

/-- Append a nested sub-agent call (`subAgentCalls.push`). -/
def ToolCall.pushSub (tc sub : ToolCall) : ToolCall :=
  ToolCall.mk tc.core (tc.subAgentCalls ++ [sub])

/-- Overwrite the `input` field of a tool call. -/
def ToolCall.setInput (tc : ToolCall) (v : Json) : ToolCall :=
  ToolCall.mk { tc.core with input := some v } tc.subAgentCalls

instance : Inhabited ToolCall := ⟨ToolCall.mk default []⟩

/-- An ordered content segment of a message (runtime union: plain text,
inline code block, tool call, reasoning block), each carrying its
`order` value. -/
inductive ContentSegment where
  | text : String → Nat → ContentSegment
  | code : String → String → Nat → ContentSegment
  | thinking : String → Nat → ContentSegment
  | tool : ToolCall → Nat → ContentSegment

/-- The `order` field of a segment. -/
def ContentSegment.order : ContentSegment → Nat
  | ContentSegment.text _ o => o
  | ContentSegment.code _ _ o => o
  | ContentSegment.thinking _ o => o
  | ContentSegment.tool _ o => o

/-- Is this a `tool_call` segment? -/
def ContentSegment.isTool : ContentSegment → Bool
  | ContentSegment.tool _ _ => true
  | _ => false

/-- Is this a `thinking` segment? -/
def ContentSegment.isThinking : ContentSegment → Bool
  | ContentSegment.thinking _ _ => true
  | _ => false

/-- The tool call of a `tool_call` segment. -/
def ContentSegment.toolCall? : ContentSegment → Option ToolCall
  | ContentSegment.tool tc _ => some tc
  | _ => none

/-- Apply `f` to the tool call of a `tool_call` segment (used to model
in-place mutation of an already-pushed tool call). -/
def ContentSegment.mapTool (f : ToolCall → ToolCall) : ContentSegment → ContentSegment
  | ContentSegment.tool tc o => ContentSegment.tool (f tc) o
  | s => s

/-- A recorded markdown file reference of the text parser. -/
structure FileReference where
  path : String
  lines : Option String
deriving DecidableEq, Inhabited

/-- Task progress state. -/
inductive TaskState where
  | pending | started | completed
deriving DecidableEq, Inhabited

/-- A recorded task status line of the text parser. -/
structure TaskStatus where
  title : String
  status : TaskState
  index : Option String := none
deriving DecidableEq, Inhabited

/-- Flattened variable data attached to a user message by the JSON
export parser. -/
structure VariableData where
  kind : Option Json := none
  name : Option Json := none
  description : Option Json := none
  value : Option Json := none
deriving Inhabited

/-- A chat message. -/
structure ChatMessage where
  id : String
  role : MessageRole
  contentSegments : List ContentSegment
  codeBlocks : List (String × String) := []
  fileReferences : List FileReference := []
  tasks : List TaskStatus := []
  variableData : Option (List VariableData) := none

/-- Session metadata. -/
structure SessionMetadata where
  totalMessages : Nat
  toolCallCount : Nat
  fileCount : Nat
deriving DecidableEq, Inhabited

/-- The parser output: messages plus metadata. -/
structure ParsedSession where
  messages : List ChatMessage
  metadata : SessionMetadata

/-! ## Format detector (src/lib/parser/format-detector.ts) -/

/-- Detected log format. -/
inductive LogFormat where
  | text | json | chatreplay
deriving DecidableEq, Inhabited

/-- `detectLogFormat`: structural probe deciding which parser handles
the raw content. -/
def detectLogFormat (content : String) : LogFormat :=
  let trimmed := jsTrim content
  if strStartsWith trimmed "\x7b" then
    match jsonParse content with
    | some parsed =>
      if jsTruthy (jsField parsed "prompts") &&
          (match jsField parsed "prompts" with
           | some (Json.arr _) => true
           | _ => false) &&
          jsTruthy (jsField parsed "exportedAt") then
        LogFormat.chatreplay
      else if jsTruthy (jsField parsed "requests") &&
          (match jsField parsed "requests" with
           | some (Json.arr _) => true
           | _ => false) then
        LogFormat.json
      else LogFormat.text
    | none => LogFormat.text
  else LogFormat.text

/-! ## Text Log Parser (src/unnamed/part_001, class CopilotLogParser) -/

/-- Update the `i`-th element of a list in place. -/
def listModify (i : Nat) (f : α → α) : List α → List α
  | [] => []
  | x :: t =>
    match i with
    | 0 => f x :: t
    | Nat.succ j => x :: listModify j f t

/-- Recognizer for `/^(Starting|Completed):\s+\*?(.+?)\*?\s+\((\d+\/\d+)\)/`
after its literal head has been consumed: yields the lazily captured
title and the `i/n` index capture. -/
def starTitleIdx (r0 : List Char) : Option (String × String) :=
  let accept (cs : List Char) : Option String :=
    let cands := match cs with
      | '*' :: t => [t, cs]
      | _ => [cs]
    cands.findSome? (fun c1 =>
      match ws1 c1 with
      | none => none
      | some c2 =>
        match c2 with
        | '(' :: c3 =>
          (match digits1 c3 with
           | some (d1, c4) =>
             (match c4 with
              | '/' :: c5 =>
                (match digits1 c5 with
                 | some (d2, c6) =>
                   (match c6 with
                    | ')' :: _ => some (String.mk (d1 ++ '/' :: d2))
                    | _ => none)
                 | none => none)
              | _ => none)
           | none => none)
        | _ => none)
  match ws1 r0 with
  | none => none
  | some r1 =>
    let starts := match r1 with
      | '*' :: t => [t, r1]
      | _ => [r1]
    starts.findSome? (fun s0 =>
      match s0 with
      | [] => none
      | c :: t => (lazySplit accept t).map (fun p => (String.mk (c :: p.1), p.2)))

/-- Recognizer for the `Ran ...` line
(`/^Ran\s+(.+?)(?:\s*-\s*(.+))?$/`), yielding the action capture. -/
def ranMatchT (line : String) : Option String :=
  match litD "Ran" line.data with
  | none => none
  | some r0 =>
    match ws1 r0 with
    | none => none
    | some rest =>
      let accept (cs : List Char) : Option Unit :=
        match ws0 cs with
        | '-' :: t => if (ws0 t).isEmpty then none else some ()
        | _ => if cs.isEmpty then some () else none
      match rest with
      | [] => none
      | c :: t => (lazySplit accept t).map (fun p => String.mk (c :: p.1))

/-- Keyword-based tool typing of a `Ran` action (`extractToolType`). -/
def extractToolType (action : String) : ToolCallType :=
  let l := strToLower action
  if strIncludes l "navigate" then ToolCallType.navigate
  else if strIncludes l "click" then ToolCallType.click
  else if strIncludes l "type" then ToolCallType.typ
  else if strIncludes l "screenshot" then ToolCallType.screenshot
  else if strIncludes l "snapshot" then ToolCallType.screenshot
  else if strIncludes l "search" then ToolCallType.search
  else ToolCallType.run

/-- Accepts `,\s*(\d+)\s*results?` (the tail of the generic
`Searched ..., N results` pattern), yielding the digit capture. -/
def acceptCountTail (cs : List Char) : Option (List Char) :=
  match cs with
  | ',' :: t =>
    (match digits1 (ws0 t) with
     | some (ds, t2) =>
       if "result".data.isPrefixOf (ws0 t2) then some ds else none
     | none => none)
  | _ => none

/-- Accepts `,\s*(no results|no matches)` anchored to the end of input
(the `$`-anchored zero-result tails). -/
def acceptNoResTailEnd (cs : List Char) : Option Unit :=
  match cs with
  | ',' :: t =>
    let t1 := ws0 t
    if t1 = "no results".data || t1 = "no matches".data then some () else none
  | _ => none

/-- Recognizer for the quoted-regex head
`for\s+regex\s+` + a backtick-quoted nonempty pattern; returns the
pattern capture and the remaining input after the closing quote. -/
def quotedRegexHead (rest : List Char) : Option (String × List Char) :=
  litD "for" rest |>.bind ws1 |>.bind (litD "regex") |>.bind ws1 |>.bind
    (fun r =>
      match r with
      | '`' :: t =>
        let p := t.takeWhile (fun ch => ch ≠ '`')
        (match t.dropWhile (fun ch => ch ≠ '`') with
         | '`' :: r2 => if p.isEmpty then none else some (String.mk p, r2)
         | _ => none)
      | _ => none)

/-- Recognizer for
`/^Searched\s+for\s+(regex|text)\s+(.+?),\s*(no results|no matches)$/`
after `Searched\s+` has been consumed: yields the kind and the lazily
captured pattern. -/
def forKindNoResults (rest : List Char) : Option (String × String) :=
  litD "for" rest |>.bind (fun r =>
    (ws1 r).bind (fun r1 =>
      let kinded : Option (String × List Char) :=
        match litD "regex" r1 with
        | some r2 => (ws1 r2).map (fun r3 => ("regex", r3))
        | none =>
          match litD "text" r1 with
          | some r2 => (ws1 r2).map (fun r3 => ("text", r3))
          | none => none
      kinded.bind (fun kr =>
        match kr.2 with
        | [] => none
        | c :: t => (lazySplit acceptNoResTailEnd t).map
            (fun p => (kr.1, String.mk (c :: p.1))))))

/-- Recognizer for the generic zero-result pattern
`/^Searched\s+(?:for\s+(?:regex|text)\s+)?`-quote`?([^`,]+?)`-quote`?,\s*(no results|no matches)$/`
after `Searched\s+`: yields the pattern capture.  (The
`for files matching` middle alternative is unreachable here because the
earlier `includes('for files matching')` branch consumes those lines.) -/
def genericNoResults (rest : List Char) : Option String :=
  let withoutKind (r : List Char) : Option String :=
    let r1 := match r with
      | '`' :: t => t
      | _ => r
    let accept (cs : List Char) : Option Unit :=
      let cs1 := match cs with
        | '`' :: u => u
        | _ => cs
      acceptNoResTailEnd (ws0 cs1)
    match r1 with
    | [] => none
    | c :: t =>
      (lazySplit accept t).bind (fun p =>
        let cap := c :: p.1
        if cap.any (fun ch => ch = ',' || ch = '`') then none
        else some (String.mk cap))
  let kindHead : Option (List Char) :=
    litD "for" rest |>.bind ws1 |>.bind (fun r1 =>
      ((litD "regex" r1).bind ws1) <|> ((litD "text" r1).bind ws1))
  match kindHead with
  | some r => withoutKind r <|> withoutKind rest
  | none => withoutKind rest

/-- Recognizer for
`/^Searched\s+\(([^)]+)\),\s*(no results|no matches|(\d+)\s*results?)$/`
after `Searched\s+`: yields the path capture and the rendered output. -/
def parenSearchT (rest : List Char) : Option (String × String) :=
  match rest with
  | '(' :: t =>
    let p := t.takeWhile (fun ch => ch ≠ ')')
    (match t.dropWhile (fun ch => ch ≠ ')') with
     | ')' :: ',' :: r3 =>
       if p.isEmpty then none
       else
         let r4 := ws0 r3
         if r4 = "no results".data || r4 = "no matches".data then
           some (String.mk p, "0 results")
         else
           (match digits1 r4 with
            | some (ds, r5) =>
              let r6 := ws0 r5
              if r6 = "results".data || r6 = "result".data then
                some (String.mk p, String.mk ds ++ " results")
              else none
            | none => none)
     | _ => none)
  | _ => none

/-- One tool-call recognizer pass over a line
(`CopilotLogParser.parseToolCall`), trying each pattern in source
order. -/
def parseToolCallT (line : String) : Option ToolCall :=
  -- "Starting: *Task Name* (1/5)" as todo tool call
  match litD "Starting:" line.data |>.bind starTitleIdx with
  | some (title, idx) =>
    some (ToolCall.mk
      { type := ToolCallType.todo, action := "Starting " ++ title ++ " " ++ idx,
        status := some TCStatus.completed } [])
  | none =>
  -- Multi-Replace invocation
  if (litD "Using" line.data |>.bind ws1 |>.bind
        (litD "\"Multi-Replace String in Files\"")).isSome ||
      jsTrim line = "Multi-Replace String in Files" then
    some (ToolCall.mk
      { type := ToolCallType.replace, action := "Multi-Replace String in Files",
        status := some TCStatus.completed } [])
  else if (litD "Using" line.data |>.bind ws1 |>.bind
        (litD "\"Apply Patch\"")).isSome ||
      jsTrim line = "Apply Patch" then
    some (ToolCall.mk
      { type := ToolCallType.patch, action := "Apply Patch",
        status := some TCStatus.completed } [])
  else if line = "Discovering tests..." then
    some (ToolCall.mk
      { type := ToolCallType.test, action := "Discovering tests",
        status := some TCStatus.pending } [])
  else
    -- "(\d+)/(\d+)\s+tests\s+passed\s+\((\d+)%\)"
    match (do
      let (p, r1) ← digits1 line.data
      let r2 ← match r1 with
        | '/' :: t => some t
        | _ => none
      let (tot, r3) ← digits1 r2
      let r4 ← ws1 r3
      let r5 ← litD "tests" r4
      let r6 ← ws1 r5
      let r7 ← litD "passed" r6
      let r8 ← ws1 r7
      let r9 ← match r8 with
        | '(' :: t => some t
        | _ => none
      let (pct, r10) ← digits1 r9
      let _ ← litD "%)" r10
      pure (String.mk p, String.mk tot, String.mk pct)) with
    | some (p, tot, pct) =>
      some (ToolCall.mk
        { type := ToolCallType.test, action := "Tests passed",
          output := some (Json.str (p ++ "/" ++ tot ++ " (" ++ pct ++ "%)")),
          status := some TCStatus.completed } [])
    | none =>
    match ranMatchT line with
    | some action0 =>
      let action := jsTrim action0
      some (ToolCall.mk
        { type := extractToolType action, action := action,
          status := some TCStatus.completed } [])
    | none =>
    -- all remaining patterns start with "Searched\s+" except the last
    match (litD "Searched" line.data |>.bind ws1) with
    | some rest =>
      -- "Searched X, N results"
      (match (match rest with
        | [] => none
        | c :: t => (lazySplit acceptCountTail t).map
            (fun (p : List Char × List Char) => (String.mk (c :: p.1), String.mk p.2))) with
      | some (g1, ds) =>
        some (ToolCall.mk
          { type := ToolCallType.search, action := g1,
            output := some (Json.str (ds ++ " results")),
            status := some TCStatus.completed } [])
      | none =>
      -- "Searched ... for files matching ..."
      if !rest.isEmpty && strIncludes (String.mk rest) "for files matching" then
        match greedySplit acceptNoResTailEnd rest with
        | some (pre, _) =>
          some (ToolCall.mk
            { type := ToolCallType.search, action := jsTrim (String.mk pre),
              output := some (Json.str "0 results"),
              status := some TCStatus.completed } [])
        | none =>
          some (ToolCall.mk
            { type := ToolCallType.search, action := String.mk rest,
              status := some TCStatus.completed } [])
      else
      -- "Searched for regex `pat`, N results"
      match quotedRegexHead rest with
      | some (pat, r2) =>
        (match acceptCountTail r2 with
         | some ds =>
           some (ToolCall.mk
             { type := ToolCallType.search, action := "regex " ++ pat,
               output := some (Json.str (String.mk ds ++ " results")),
               status := some TCStatus.completed } [])
         | none =>
           -- bare quoted regex (end of line right after the quote)
           if r2.isEmpty then
             some (ToolCall.mk
               { type := ToolCallType.search, action := "for regex " ++ pat,
                 status := some TCStatus.completed } [])
           else
             (match forKindNoResults rest with
              | some (kind, pat2) =>
                some (ToolCall.mk
                  { type := ToolCallType.search, action := kind ++ " " ++ pat2,
                    output := some (Json.str "0 results"),
                    status := some TCStatus.completed } [])
              | none =>
                (match genericNoResults rest with
                 | some pat3 =>
                   some (ToolCall.mk
                     { type := ToolCallType.search, action := pat3,
                       output := some (Json.str "0 results"),
                       status := some TCStatus.completed } [])
                 | none =>
                   (parenSearchT rest).map (fun (pr : String × String) =>
                     ToolCall.mk
                       { type := ToolCallType.search, action := pr.1,
                         output := some (Json.str pr.2),
                         status := some TCStatus.completed } []))))
      | none =>
        (match forKindNoResults rest with
         | some (kind, pat2) =>
           some (ToolCall.mk
             { type := ToolCallType.search, action := kind ++ " " ++ pat2,
               output := some (Json.str "0 results"),
               status := some TCStatus.completed } [])
         | none =>
           (match genericNoResults rest with
            | some pat3 =>
              some (ToolCall.mk
                { type := ToolCallType.search, action := pat3,
                  output := some (Json.str "0 results"),
                  status := some TCStatus.completed } [])
            | none =>
              (parenSearchT rest).map (fun (pr : String × String) =>
                ToolCall.mk
                  { type := ToolCallType.search, action := pr.1,
                    output := some (Json.str pr.2),
                    status := some TCStatus.completed } []))))
    | none =>
    -- "Got output for `Task Name` task"
    match (litD "Got output for `" line.data |>.bind (fun r =>
        match r with
        | [] => none
        | c :: t => (lazySplit (fun cs => (litD "` task" cs).map (fun _ => ())) t).map
            (fun p => String.mk (c :: p.1)))) with
    | some task =>
      some (ToolCall.mk
        { type := ToolCallType.run, action := task,
          status := some TCStatus.completed } [])
    | none => none

/-- Recognizer for the markdown file-reference pattern
`/\[\]\(file:\/\/([^)#]+?)(?:#(\d+-\d+))?\)/` (searched anywhere in the
line, leftmost match). -/
def parseFileReferenceT : List Char → Option FileReference
  | [] => none
  | c :: t =>
    (match litD "[](file://" (c :: t) with
     | some r =>
       let p := r.takeWhile (fun ch => ch ≠ ')' && ch ≠ '#')
       let r2 := r.dropWhile (fun ch => ch ≠ ')' && ch ≠ '#')
       if p.isEmpty then parseFileReferenceT t
       else
         (match r2 with
          | ')' :: _ => some { path := String.mk p, lines := none }
          | '#' :: r3 =>
            (match digits1 r3 with
             | some (d1, r4) =>
               (match r4 with
                | '-' :: r5 =>
                  (match digits1 r5 with
                   | some (d2, r6) =>
                     (match r6 with
                      | ')' :: _ =>
                        some { path := String.mk p,
                               lines := some (String.mk (d1 ++ '-' :: d2)) }
                      | _ => parseFileReferenceT t)
                   | none => parseFileReferenceT t)
                | _ => parseFileReferenceT t)
             | none => parseFileReferenceT t)
          | _ => parseFileReferenceT t)
     | none => parseFileReferenceT t)

/-- Task-status recognizer (`CopilotLogParser.parseTaskStatus`). -/
def parseTaskStatusT (line : String) : Option TaskStatus :=
  match (litD "Created" line.data |>.bind ws1 |>.bind (fun r =>
      (digits1 r).bind (fun p =>
        (ws1 p.2).bind (fun r2 =>
          (litD "todo" r2).map (fun _ => String.mk p.1))))) with
  | some n =>
    some { title := "Created " ++ n ++ " todos", status := TaskState.completed }
  | none =>
    match litD "Starting:" line.data |>.bind starTitleIdx with
    | some (title, idx) =>
      some { title := title, status := TaskState.started, index := some idx }
    | none =>
      match litD "Completed:" line.data |>.bind starTitleIdx with
      | some (title, idx) =>
        some { title := title, status := TaskState.completed, index := some idx }
      | none => none

/-- The combined multi-search line split
(`line.split('|Searched')` with the `Searched` head re-attached to every
later fragment). -/
def splitPipeSearched (line : String) : List String :=
  match strSplitOn line "|Searched" with
  | [] => []
  | h :: t => h :: t.map (fun s => "Searched" ++ s)

/-- The boundary test of rule 3 of the text parser
(`/^(digitarald:|GitHub Copilot:|Ran |Searched |Read |Got output)/`). -/
def sectionBoundary (line : String) : Bool :=
  ["digitarald:", "GitHub Copilot:", "Ran ", "Searched ", "Read ", "Got output"].any
    (fun p => strStartsWith line p)

/-- Recognizer for the user-message line `/^(\w+):\s*(.+)/` with the
first capture required to equal `digitarald`: yields the second capture
(the message text after the colon, with the greedy `\s*` giving back at
most what the nonempty `(.+)` needs). -/
def userLineT (line : String) : Option String :=
  match litD "digitarald:" line.data with
  | some rest =>
    if rest.isEmpty then none
    else
      let ws := (rest.takeWhile jsWsChar).length
      some (String.mk (rest.drop (min ws (rest.length - 1))))
  | none => none

/-- Where the `lastToolCall` reference points: a segment of the current
message, a segment of an already-finalized message, or an object that
was dropped with its empty message (mutations of the latter are
unobservable). -/
inductive ToolLoc where
  | inCurrent : Nat → ToolLoc
  | inMessage : Nat → Nat → ToolLoc
  | dead : ToolLoc
deriving DecidableEq

/-- The mutable state of `CopilotLogParser.parse`, threaded over the
line loop. -/
structure TextState where
  messages : List ChatMessage
  cur : Option (String × MessageRole)
  fileRefs : List FileReference
  tasks : List TaskStatus
  codeBlocks : List (String × String)
  content : List String
  segs : List ContentSegment
  inCode : Bool
  codeLang : String
  codeLines : List String
  inTool : Bool
  toolLines : List String
  lastTool : Option ToolLoc
  msgId : Nat
  orderC : Nat

/-- The initial parser state. -/
def initTextState : TextState :=
  { messages := [], cur := none, fileRefs := [], tasks := [], codeBlocks := []
  , content := [], segs := [], inCode := false, codeLang := "", codeLines := []
  , inTool := false, toolLines := [], lastTool := none, msgId := 0, orderC := 0 }

/-- Append one content segment, assigning and bumping the running
`order` counter (`contentSegments.push(\x7b..., order: this.segmentOrderCounter++\x7d)`). -/
def pushSeg (st : TextState) (mk : Nat → ContentSegment) : TextState :=
  { st with segs := st.segs ++ [mk st.orderC], orderC := st.orderC + 1 }

/-- Flush the pending text buffer as one trimmed text segment (plain
`join('\n')` variant), dropped when empty after trimming. -/
def flushText (st : TextState) : TextState :=
  if st.content.isEmpty then st
  else
    let textContent := jsTrim (String.intercalate "\n" st.content)
    let st1 := if textContent = "" then st
      else pushSeg st (ContentSegment.text textContent)
    { st1 with content := [] }

/-- Flush variant used by the file-reference branch
(`currentContent.filter(Boolean).join('\n').trim()`). -/
def flushTextFiltered (st : TextState) : TextState :=
  if st.content.isEmpty then st
  else
    let textContent := jsTrim (String.intercalate "\n" (st.content.filter (fun s => s ≠ "")))
    let st1 := if textContent = "" then st
      else pushSeg st (ContentSegment.text textContent)
    { st1 with content := [] }

/-- Mutate the tool call the `lastToolCall` reference points at. -/
def mutateLastTool (st : TextState) (f : ToolCall → ToolCall) : TextState :=
  match st.lastTool with
  | some (ToolLoc.inCurrent i) =>
    { st with segs := listModify i (ContentSegment.mapTool f) st.segs }
  | some (ToolLoc.inMessage m i) =>
    let upd := fun (msg : ChatMessage) =>
      { msg with contentSegments := listModify i (ContentSegment.mapTool f) msg.contentSegments }
    { st with messages := listModify m upd st.messages }
  | _ => st

/-- `finalizeMessage`: flush the remaining buffer, attach the segment
list, and keep the message only if it has segments or file
references.  A `lastToolCall` reference into the current message is
relocated (or orphaned when the message is dropped). -/
def finalizeMessage (st : TextState) : TextState :=
  match st.cur with
  | none => st
  | some (mid, role) =>
    let st1 := flushText st
    let keep := !st1.segs.isEmpty || !st1.fileRefs.isEmpty
    let msg : ChatMessage :=
      { id := mid, role := role, contentSegments := st1.segs
      , codeBlocks := st1.codeBlocks, fileReferences := st1.fileRefs
      , tasks := st1.tasks }
    let newLast : Option ToolLoc :=
      match st1.lastTool with
      | some (ToolLoc.inCurrent i) =>
        if keep then some (ToolLoc.inMessage st1.messages.length i)
        else some ToolLoc.dead
      | other => other
    { st1 with
        messages := if keep then st1.messages ++ [msg] else st1.messages
      , lastTool := newLast }

/-- Start a fresh message (`generateId` plus the per-message resets of
the user/assistant branches). -/
def startMessage (st : TextState) (role : MessageRole) (firstContent : String) : TextState :=
  let st1 := finalizeMessage st
  { st1 with
      cur := some ("msg_" ++ toString (st1.msgId + 1), role)
    , msgId := st1.msgId + 1
    , fileRefs := [], tasks := [], codeBlocks := []
    , content := [firstContent], segs := [], orderC := 0 }

/-- Rule 10: anything else is appended verbatim to the pending text
buffer (only while inside a message). -/
def stage11 (line : String) (st : TextState) : TextState :=
  match st.cur with
  | some _ => { st with content := st.content ++ [line] }
  | none => st

/-- Rule 9: task-status lines are recorded into the task list. -/
def stage10 (line : String) (st : TextState) : TextState :=
  match parseTaskStatusT line, st.cur with
  | some task, some _ => { st with tasks := st.tasks ++ [task] }
  | _, _ => stage11 line st

/-- Rule 8: tool-call recognizers; flush the buffer, append the tool
segment, and remember it as `lastToolCall`. -/
def stage9 (line : String) (st : TextState) : TextState :=
  match parseToolCallT line, st.cur with
  | some tc, some _ =>
    let st1 := flushText st
    let idx := st1.segs.length
    { pushSeg st1 (ContentSegment.tool tc) with lastTool := some (ToolLoc.inCurrent idx) }
  | _, _ => stage10 line st

/-- Rule 7: `Completed with input:` governs the input-collection state
of `lastToolCall` without emitting a segment. -/
def stage8 (line : String) (st : TextState) : TextState :=
  match litD "Completed with input:" line.data with
  | some restD =>
    (match st.lastTool with
     | some _ =>
       let inline := jsTrim (String.mk (restD.dropWhile jsWsChar))
       if inline ≠ "" then
         if strStartsWith inline "\x7b" || strStartsWith inline "[" then
           match jsonParse inline with
           | some _ =>
             { mutateLastTool st (fun tc => tc.setInput (Json.str inline)) with
                 lastTool := none }
           | none => { st with inTool := true, toolLines := [inline] }
         else
           { mutateLastTool st (fun tc => tc.setInput (Json.str inline)) with
               lastTool := none }
       else { st with inTool := true, toolLines := [] }
     | none => st)
  | none => stage9 line st

/-- Rule 6: a markdown file reference records a `FileReference`; a line
that additionally starts with `Read` also emits a `read` tool-call
segment. -/
def stage7 (line : String) (st : TextState) : TextState :=
  match parseFileReferenceT line.data, st.cur with
  | some fr, some _ =>
    let st1 := { st with fileRefs := st.fileRefs ++ [fr] }
    if strStartsWith line "Read" then
      let st2 := flushTextFiltered st1
      let basename := (strSplitOn fr.path "/").getLastD ""
      let tc := ToolCall.mk
        { type := ToolCallType.read, action := "Read " ++ basename
        , input := some (Json.str fr.path), status := some TCStatus.completed } []
      pushSeg st2 (ContentSegment.tool tc)
    else st1
  | _, _ => stage8 line st

/-- Rule 5: the assistant marker starts a new assistant message. -/
def stage6 (line : String) (st : TextState) : TextState :=
  if strStartsWith line "GitHub Copilot:" then
    startMessage st MessageRole.assistant (jsTrim (strDrop line 15))
  else stage7 line st

/-- Rule 4: the `digitarald:` marker starts a new user message. -/
def stage5 (line : String) (st : TextState) : TextState :=
  match userLineT line with
  | some c => startMessage st MessageRole.user c
  | none => stage6 line st

/-- Rule 3: multi-line tool-input collection; a complete JSON buffer is
attached to `lastToolCall`, a section boundary aborts collection and
reprocesses the line from the message markers on. -/
def stage4 (line : String) (st : TextState) : TextState :=
  if st.inTool then
    let st1 := { st with toolLines := st.toolLines ++ [line] }
    let joined := String.intercalate "\n" st1.toolLines
    match jsonParse joined with
    | some _ =>
      if st1.lastTool.isSome && st1.cur.isSome then
        { mutateLastTool st1 (fun tc => tc.setInput (Json.str joined)) with
            inTool := false, toolLines := [], lastTool := none }
      else st1
    | none =>
      if jsTrim line = "" || sectionBoundary line then
        let st2 :=
          if st1.lastTool.isSome then
            mutateLastTool st1 (fun tc =>
              tc.setInput (Json.str (String.intercalate "\n" st1.toolLines.dropLast)))
          else st1
        stage5 line { st2 with inTool := false, toolLines := [], lastTool := none }
      else st1
  else stage5 line st

/-- Rule 2 (continued): lines inside an open code fence are collected
verbatim. -/
def stage3 (line : String) (st : TextState) : TextState :=
  if st.inCode then { st with codeLines := st.codeLines ++ [line] }
  else stage4 line st

/-- Rule 2: a code fence toggles code collection; on close the body is
bundled into the message's code-block side list. -/
def stage2 (line : String) (st : TextState) : TextState :=
  let trimmed := jsTrim line
  if strStartsWith trimmed "```" then
    if !st.inCode then
      let t := jsTrim (strDrop trimmed 3)
      let lang := if t = "" then "plaintext" else t
      { st with inCode := true, codeLang := lang, codeLines := [] }
    else
      let st1 := { st with inCode := false }
      match st1.cur with
      | some _ =>
        { st1 with codeBlocks :=
            st1.codeBlocks ++ [(st1.codeLang, String.intercalate "\n" st1.codeLines)] }
      | none => st1
  else stage3 line st

/-- Rule 1: a combined multi-search line emits one independent search
tool call per `|Searched`-separated fragment. -/
def stage1 (line : String) (st : TextState) : TextState :=
  if strStartsWith line "Searched " && strIncludes line "|Searched " then
    match st.cur with
    | some _ =>
      let st1 := flushText st
      (splitPipeSearched line).foldl (fun s frag =>
        match parseToolCallT frag with
        | some tc =>
          let idx := s.segs.length
          { pushSeg s (ContentSegment.tool tc) with lastTool := some (ToolLoc.inCurrent idx) }
        | none => s) st1
    | none => stage2 line st
  else stage2 line st

/-- One line of `CopilotLogParser.parse`'s loop. -/
def stepLine (st : TextState) (line : String) : TextState :=
  stage1 line st

/-- `CopilotLogParser.parse` (also the text-format path of `parseLog`):
fold the rules over the lines, finalize the last message, and compute
the session metadata exactly as the source does. -/
def copilotParse (logText : String) : ParsedSession :=
  let lines := strSplitOn logText "\n"
  let stF := finalizeMessage (lines.foldl stepLine initTextState)
  let msgs := stF.messages
  { messages := msgs
  , metadata :=
    { totalMessages := msgs.length
    , toolCallCount := msgs.foldl (fun acc m =>
        acc + (m.contentSegments.filter ContentSegment.isTool).length) 0
    , fileCount := msgs.foldl (fun acc m => acc + m.fileReferences.length) 0 } }

/-! ## Json Export Parser (src/lib/parser/json-parser.ts, class JsonLogParser) -/

mutual

/-- Structural equality of JSON values (used for the thinking-id dedup
set; the ids observed are strings, for which this coincides with
JavaScript `Set` membership). -/
def jsonBeq : Json → Json → Bool
  | Json.null, Json.null => true
  | Json.bool a, Json.bool b => a = b
  | Json.num a, Json.num b => a = b
  | Json.str a, Json.str b => a = b
  | Json.arr a, Json.arr b => jsonListBeq a b
  | Json.obj a, Json.obj b => jsonFieldsBeq a b
  | _, _ => false

/-- Elementwise equality of JSON arrays. -/
def jsonListBeq : List Json → List Json → Bool
  | [], [] => true
  | a :: t, b :: u => jsonBeq a b && jsonListBeq t u
  | _, _ => false

/-- Memberwise equality of JSON objects. -/
def jsonFieldsBeq : List (String × Json) → List (String × Json) → Bool
  | [], [] => true
  | (k, a) :: t, (l, b) :: u => k = l && jsonBeq a b && jsonFieldsBeq t u
  | _, _ => false

end

/-- Split at the first occurrence of `pat`: returns the part before and
the part after the occurrence. -/
def splitFirst (pat : String) : List Char → Option (List Char × List Char)
  | [] => if pat.data.isEmpty then some ([], []) else none
  | c :: t =>
    if pat.data.isPrefixOf (c :: t) then some ([], (c :: t).drop pat.length)
    else (splitFirst pat t).map (fun p => (c :: p.1, p.2))

/-- Safe field read on a possibly-`undefined` receiver (yields
`undefined` rather than throwing; used where the source has already
established the receiver is truthy). -/
def jsFieldO (v : Option Json) (k : String) : Option Json :=
  match v with
  | some w => jsField w k
  | none => none

/-- `String(x)` for a possibly-`undefined` value. -/
def jsToStringO : Option Json → String
  | none => "undefined"
  | some v => jsToString v

/-- The `Using "<label>".` unwrapping of `extractMessage`
(`/^Using\s*["'](.+?)["']\s*\.?$/` replaced by the capture). -/
def usingStrip (s : String) : String :=
  let accept (cs : List Char) : Option Unit :=
    match cs with
    | q :: t =>
      if q = '"' || q = '\'' then
        let t1 := ws0 t
        if t1.isEmpty || t1 = ['.'] then some () else none
      else none
    | [] => none
  match litD "Using" s.data with
  | some r0 =>
    let r1 := ws0 r0
    (match r1 with
     | q :: rest =>
       if q = '"' || q = '\'' then
         match rest with
         | [] => s
         | c :: t =>
           (match lazySplit accept t with
            | some (p, _) => String.mk (c :: p)
            | none => s)
       else s
     | [] => s)
  | none => s

/-- `extractMessage` of the JSON parser: unwraps `pastTenseMessage` or
`invocationMessage` values, throwing where the source would call
`.replace` on a non-string. -/
def extractMessage (msg : Option Json) : Except Unit String :=
  if !jsTruthy msg then Except.ok (usingStrip "Unknown action")
  else
    match msg with
    | some (Json.str s) => Except.ok (usingStrip s)
    | some w =>
      let value := jsField w "value"
      if jsTruthy value then
        (match value with
         | some (Json.str s) => Except.ok (usingStrip s)
         | _ => Except.error ())
      else Except.ok (usingStrip "Unknown action")
    | none => Except.error ()

/-- The `action = rawAction.replace(/^Ran\s+/, '')` strip. -/
def stripRan (s : String) : String :=
  match litD "Ran" s.data |>.bind ws1 with
  | some r => String.mk r
  | none => s

/-- `mapToolIdToType`: substring-based, case-insensitive priority
mapping from `toolId` to a tool type; a truthy non-string `toolId`
throws at the `.match` call. -/
def mapToolIdToType (toolId : Option Json) : Except Unit ToolCallType :=
  let mapIdStr (s : String) : ToolCallType :=
    let l := strToLower s
    if strIncludes l "runsubagent" then ToolCallType.subagent
    else if strIncludes l "applypatch" then ToolCallType.patch
    else if strIncludes l "multireplacestring" || strIncludes l "replacestring" then
      ToolCallType.replace
    else if strIncludes l "runtests" || strIncludes l "test" then ToolCallType.test
    else if strIncludes l "read" then ToolCallType.read
    else if strIncludes l "search" then ToolCallType.search
    else if strIncludes l "navigate" then ToolCallType.navigate
    else if strIncludes l "click" then ToolCallType.click
    else if strIncludes l "type" then ToolCallType.typ
    else if strIncludes l "screenshot" || strIncludes l "snapshot" then
      ToolCallType.screenshot
    else if strIncludes l "run" then ToolCallType.run
    else if strIncludes l "todo" then ToolCallType.todo
    else ToolCallType.other
  match toolId with
  | some (Json.str s) => Except.ok (mapIdStr s)
  | v => if jsTruthy v then Except.error () else Except.ok (mapIdStr "")

/-- `/^Searched\b/` test on the raw action. -/
def startsSearchedWord (s : String) : Bool :=
  "Searched".data.isPrefixOf s.data &&
    (match s.data.drop 8 with
     | [] => true
     | c :: _ => !isWordChar c)

/-- Mines `### New console messages` bullet lists out of an embed
output (`/### New console messages\n([\s\S]*?)(?=\n###|$)/`). -/
def mineConsole (s : String) : Option (List String) :=
  (splitFirst "### New console messages\n" s.data).map (fun p =>
    let content :=
      match splitFirst "\n###" p.2 with
      | some q => q.1
      | none => p.2
    (strSplitOn (String.mk content) "\n").filterMap (fun l =>
      if strStartsWith (jsTrim l) "-" then
        let l2 := match l.data with
          | '-' :: t => t.dropWhile jsWsChar
          | other => other
        some (jsTrim (String.mk l2))
      else none))

/-- Mines the fenced `### Page state` YAML block out of an embed output
(`/### Page state[\s\S]*?```yaml\n([\s\S]*?)\n```/`). -/
def minePageState (s : String) : Option String :=
  (splitFirst "### Page state" s.data).bind (fun p =>
    (splitFirst "```yaml\n" p.2).bind (fun q =>
      (splitFirst "\n```" q.2).map (fun r => String.mk r.1)))

/-- The `/^(```\w*\s*)+$/` test: is the trimmed value made up solely of
bare fence markers? -/
def onlyFenceMarkers (s : String) : Bool :=
  let rec go (cs : List Char) (fuel : Nat) : Bool :=
    match fuel with
    | 0 => false
    | Nat.succ f =>
      match litD "```" cs with
      | some r =>
        let r2 := (r.dropWhile isWordChar).dropWhile jsWsChar
        r2.isEmpty || go r2 f
      | none => false
  go s.data s.length

/-- The `/^```\w*$/` test of `collectFileEdits`. -/
def isBareFence (s : String) : Bool :=
  match litD "```" s.data with
  | some r => r.all isWordChar
  | none => false

/-- The `/\.\w+#?L?\d*$/` suffix test of inline references (does the
name end in a dot, word characters, and an optional `#`/`L`/digit
suffix?). -/
def fileSuffixTest (s : String) : Bool :=
  (allSplits s.data).any (fun p =>
    match p.2 with
    | '.' :: t =>
      let w := t.takeWhile isWordChar
      let r := t.dropWhile isWordChar
      if w.isEmpty then false
      else
        let r1 := match r with
          | '#' :: u => u
          | other => other
        let r2 := match r1 with
          | 'L' :: u => u
          | other => other
        r2.all Char.isDigit
    | _ => false)

/-- A pre-ordered fragment produced by the fenced-code splitter. -/
inductive PreSeg where
  | txt : String → PreSeg
  | codeB : String → String → PreSeg

/-- Finds the first opening fence ` ``` ` + language + newline (the
engine advances one character when a backtick run is not followed by a
language tag and newline). -/
def findFenceOpen : List Char → Option (List Char × String × List Char)
  | [] => none
  | c :: t =>
    let isLangChar (ch : Char) : Bool :=
      ch.isAlpha || ch.isDigit || ch = '_' || ch = '-'
    let tryHere : Option (String × List Char) :=
      match litD "```" (c :: t) with
      | some afterTicks =>
        let lang := afterTicks.takeWhile isLangChar
        (match afterTicks.dropWhile isLangChar with
         | '\n' :: rest => some (String.mk lang, rest)
         | _ => none)
      | none => none
    match tryHere with
    | some (lang, rest) => some ([], lang, rest)
    | none =>
      (findFenceOpen t).map (fun p => (c :: p.1, p.2.1, p.2.2))

/-- `splitTextIntoSegments`: split accumulated text on fenced code
blocks into alternating text/code fragments. -/
def splitTextIntoSegments (text : String) : List PreSeg :=
  let rec go (cs : List Char) (fuel : Nat) : List PreSeg :=
    match fuel with
    | 0 => if cs.isEmpty then [] else [PreSeg.txt (jsTrim (String.mk cs))].filter
        (fun p => match p with | PreSeg.txt s => s ≠ "" | _ => true)
    | Nat.succ f =>
      match findFenceOpen cs with
      | some (before, lang, afterOpen) =>
        (match splitFirst "```" afterOpen with
         | some (code, afterClose) =>
           let pre := jsTrim (String.mk before)
           let preSegs := if pre = "" then [] else [PreSeg.txt pre]
           preSegs ++
             [PreSeg.codeB (if lang = "" then "plaintext" else lang) (String.mk code)] ++
             go afterClose f
         | none =>
           let trailing := jsTrim (String.mk cs)
           if trailing = "" then [] else [PreSeg.txt trailing])
      | none =>
        let trailing := jsTrim (String.mk cs)
        if trailing = "" then [] else [PreSeg.txt trailing]
  let segs := go text.data (text.length + 1)
  if segs.isEmpty then [PreSeg.txt text] else segs

/-- `=== 'literal'` comparison against a string literal. -/
def isStrVal (v : Option Json) (s : String) : Bool :=
  match v with
  | some (Json.str t) => t = s
  | _ => false

/-- Inner loop of the sub-agent mining: walk `round.toolCalls` until
the first `runSubagent` call, updating the ambient `input`/`output`
variables, then break. -/
def mineRoundCalls (toolCallResults : Option Json) :
    List Json → Option Json → Option Json → Except Unit (Option Json × Option Json)
  | [], inp, outp => Except.ok (inp, outp)
  | call :: rest, inp, outp => do
    let name ← jsAccess (some call) "name"
    if isStrVal name "runSubagent" then do
      let argsV := jsField call "arguments"
      let inp2 :=
        if jsTruthy argsV then
          match jsonParse (jsToStringO argsV) with
          | some parsed =>
            (match parsed with
             | Json.null => argsV
             | _ =>
               let pr := jsField parsed "prompt"
               if jsTruthy pr then pr else argsV)
          | none => argsV
        else inp
      let idV := jsField call "id"
      let outp2 ←
        if jsTruthy toolCallResults && jsTruthy idV then do
          let result := jsFieldO toolCallResults (jsToStringO idV)
          let content := jsAccessOpt result "content"
          if jsTruthy (jsFieldO content "length") then do
            let elem0 : Option Json :=
              match content with
              | some (Json.arr (x :: _)) => some x
              | some (Json.str s) =>
                (match s.data with
                 | c :: _ => some (Json.str (String.mk [c]))
                 | [] => none)
              | some (Json.obj fs) => lookupLastField fs "0"
              | _ => none
            jsAccess elem0 "value"
          else Except.ok outp
        else Except.ok outp
      Except.ok (inp2, outp2)
    else mineRoundCalls toolCallResults rest inp outp

/-- Outer loop of the sub-agent mining over `toolCallRounds`
(`if (input) break` between rounds). -/
def mineRounds (toolCallResults : Option Json) :
    List Json → Option Json → Option Json → Except Unit (Option Json × Option Json)
  | [], inp, outp => Except.ok (inp, outp)
  | round :: rest, inp, outp => do
    let tcs ← jsAccess (some round) "toolCalls"
    if !jsTruthy tcs then mineRounds toolCallResults rest inp outp
    else do
      let calls ← jsIterate tcs
      let (inp2, outp2) ← mineRoundCalls toolCallResults calls inp outp
      if jsTruthy inp2 then Except.ok (inp2, outp2)
      else mineRounds toolCallResults rest inp2 outp2

/-- The normalized-result-count derivation site of the JSON export
parser (`countSource = output || rawAction` followed by the shared
count/zero-phrase rules); calling `.match` on a truthy non-string
output throws. -/
def jsonDeriveCount (output : Option Json) (rawAction : String) : Except Unit (Option Nat) := do
  let countSource ←
    if jsTruthy output then
      match output with
      | some (Json.str s) => Except.ok s
      | _ => Except.error ()
    else Except.ok rawAction
  Except.ok
    (match countResultsMatch countSource with
     | some n => some n
     | none =>
       if hasNoResultsPhrase countSource ||
           (match output with
            | some (Json.str s) => s = "0 results"
            | _ => false) then some 0
       else none)

/-- Leftmost match of `/\[\]\(file:\/\/([^)]+)\)/` (the read-file
action rewrite source). -/
def readFileMatch : List Char → Option String
  | [] => none
  | c :: t =>
    (match litD "[](file://" (c :: t) with
     | some r =>
       let path := r.takeWhile (fun ch => ch ≠ ')')
       (match r.dropWhile (fun ch => ch ≠ ')') with
        | ')' :: _ => if path.isEmpty then readFileMatch t else some (String.mk path)
        | _ => readFileMatch t)
     | none => readFileMatch t)

/-- Walk of `resultDetails.output` embeds: PNG embeds become the
screenshot, other truthy embeds become the output (further mined for
console messages and the page-state block). -/
def mineEmbeds :
    List Json → Option Json × Option Json × Option (List String) × Option String →
    Except Unit (Option Json × Option Json × Option (List String) × Option String)
  | [], acc => Except.ok acc
  | elem :: rest, (scr, outp, con, snap) => do
    let t ← jsAccess (some elem) "type"
    let mime := jsField elem "mimeType"
    let v := jsField elem "value"
    if isStrVal t "embed" && isStrVal mime "image/png" then
      mineEmbeds rest (v, outp, con, snap)
    else if isStrVal t "embed" && jsTruthy v then
      match v with
      | some (Json.str s) =>
        let con2 := match mineConsole s with
          | some l => some l
          | none => con
        let snap2 := match minePageState s with
          | some p => some p
          | none => snap
        mineEmbeds rest (scr, some (Json.str s), con2, snap2)
      | _ => Except.error ()
    else mineEmbeds rest (scr, outp, con, snap)

/-- `JsonLogParser.parseToolCallFromItem`. -/
def parseToolCallFromItem (item : Json) (toolCallResults toolCallRounds : Option Json) :
    Except Unit ToolCall := do
  let toolId := jsField item "toolId"
  let toolCallId := jsField item "toolCallId"
  let invocationMsg := jsField item "invocationMessage"
  let pastMsg := jsField item "pastTenseMessage"
  let source := jsField item "source"
  let resultDetails := jsField item "resultDetails"
  let fromSubAgent := match jsField item "fromSubAgent" with
    | some (Json.bool true) => true
    | _ => false
  let rawAction ← extractMessage (if jsTruthy pastMsg then pastMsg else invocationMsg)
  let action0 := stripRan rawAction
  let type0 ← mapToolIdToType toolId
  let (inp0, outp0) ←
    if type0 = ToolCallType.subagent && jsTruthy toolCallRounds then do
      let rounds ← jsIterate toolCallRounds
      mineRounds toolCallResults rounds none none
    else Except.ok ((none : Option Json), (none : Option Json))
  let (action1, inp1) :=
    if type0 = ToolCallType.read && action0 ≠ "" then
      match readFileMatch action0.data with
      | some filePath =>
        let filename := (strSplitOn filePath "/").getLastD ""
        ("Read " ++ filename, if jsTruthy inp0 then inp0 else some (Json.str filePath))
      | none => (action0, inp0)
    else (action0, inp0)
  let (scr, outp1, con, snap, inp2) ←
    if jsTruthy resultDetails then do
      let rdInput := jsFieldO resultDetails "input"
      let inpA := if jsTruthy rdInput then rdInput else inp1
      match jsFieldO resultDetails "output" with
      | some (Json.arr elems) => do
        let (scr, o, c, sn) ← mineEmbeds elems (none, outp0, none, none)
        Except.ok (scr, o, c, sn, inpA)
      | _ =>
        Except.ok ((none : Option Json), outp0, (none : Option (List String)),
          (none : Option String), inpA)
    else
      Except.ok ((none : Option Json), outp0, (none : Option (List String)),
        (none : Option String), inp1)
  let type2 :=
    if type0 ≠ ToolCallType.search && startsSearchedWord rawAction then ToolCallType.search
    else type0
  let nrc ← jsonDeriveCount outp1 rawAction
  let status := match jsField item "isComplete" with
    | some (Json.bool b) => if b then TCStatus.completed else TCStatus.pending
    | _ => TCStatus.pending
  let mcp :=
    if isStrVal (jsAccessOpt source "type") "mcp" then
      let sl := jsFieldO source "serverLabel"
      if jsTruthy sl then sl else jsFieldO source "label"
    else none
  Except.ok (ToolCall.mk
    { type := type2, action := action1, rawAction := some rawAction
    , input := inp2, output := outp1, status := some status
    , toolCallId := toolCallId, mcpServer := mcp, screenshot := scr
    , consoleOutput := con, pageSnapshot := snap
    , fromSubAgent := fromSubAgent
    , isSubagentRoot := strIncludesCI (jsToStringO toolId) "runsubagent"
    , normalizedResultCount := nrc } [])

/-- `extractFilePath` of `collectFileEdits`. -/
def extractFilePath (uri : Option Json) : String :=
  match uri with
  | some (Json.str s) =>
    (match splitFirst "file://" s.data with
     | some p => String.mk (p.1 ++ p.2)
     | none => s)
  | u =>
    let p := jsAccessOpt u "path"
    if jsTruthy p then jsToStringO p
    else
      let fp := jsAccessOpt u "fsPath"
      if jsTruthy fp then jsToStringO fp else "Unknown file"

/-- One collected `FileEdit` out of the first element of an edit
array (`text: editData.text || ''`, the range fields each defaulted
with `|| 0`). -/
def mkFileEdit (filePath : String) (ed : Json) : FileEdit :=
  let textV := jsField ed "text"
  let rangeV := jsField ed "range"
  { filePath := filePath
  , text := if jsTruthy textV then jsToStringO textV else ""
  , range :=
      if jsTruthy rangeV then
        let g (k : String) : Int :=
          match jsFieldO rangeV k with
          | some (Json.num n) => n
          | _ => 0
        some (g "startLineNumber", g "startColumn", g "endLineNumber", g "endColumn")
      else none }

/-- The break test of `collectFileEdits` on an accessed `value`: a
nonempty string whose trim is nonempty and is not a bare fence. -/
def isBreakValue (v : Option Json) : Bool :=
  match v with
  | some (Json.str s) =>
    s != "" && jsTrim s != "" && !isBareFence (jsTrim s)
  | _ => false

/-- The per-edit-array collector of `collectFileEdits` (first entry of
the array, when it is an object or array). -/
def editsFilterF (filePath : String) (ea : Json) : Option FileEdit :=
  match ea with
  | Json.arr (ed :: _) =>
    (match ed with
     | Json.obj _ => some (mkFileEdit filePath ed)
     | Json.arr _ => some (mkFileEdit filePath ed)
     | _ => none)
  | _ => none

/-- `JsonLogParser.collectFileEdits`: scan forward from the items
following a replace tool call, stopping at the first substantive text
item, collecting `textEditGroup` file edits. -/
def collectFileEdits : List Json → Except Unit (List FileEdit)
  | [] => Except.ok []
  | item :: rest => do
    let v ← jsAccess (some item) "value"
    if isBreakValue v then Except.ok []
    else
      let kind := jsField item "kind"
      let uri := jsField item "uri"
      let edits := jsField item "edits"
      if isStrVal kind "textEditGroup" && jsTruthy uri && jsTruthy edits then do
        let filePath := extractFilePath uri
        let editArrays ← jsIterate edits
        let these := editArrays.filterMap (editsFilterF filePath)
        let more ← collectFileEdits rest
        Except.ok (these ++ more)
      else collectFileEdits rest

/-- The mutable state of `JsonLogParser.parseResponse`. -/
structure RState where
  segs : List ContentSegment
  order : Nat
  acc : String
  lastIdx : Option Nat
  seen : List Json

/-- Append one segment with the running order counter. -/
def pushRSeg (st : RState) (mk : Nat → ContentSegment) : RState :=
  { st with segs := st.segs ++ [mk st.order], order := st.order + 1 }

/-- `flushAccumulatedText`: split the buffer on fences and append the
resulting text/code segments in interior order. -/
def flushAccText (st : RState) : RState :=
  if st.acc = "" then st
  else
    let st1 := (splitTextIntoSegments st.acc).foldl (fun s p =>
      match p with
      | PreSeg.txt c => pushRSeg s (ContentSegment.text c)
      | PreSeg.codeB lang code => pushRSeg s (ContentSegment.code lang code)) st
    { st1 with acc := "" }

/-- The structural kinds skipped by the response walker. -/
def skipKindsList : List String :=
  ["codeblockUri", "textEditGroup", "prepareToolInvocation", "undoStop",
   "mcpServersStarting"]

/-- The sub-agent grouping decision for one parsed tool call: a
`fromSubAgent` call is attached to the most recent top-level call when
one exists, otherwise the call becomes its own segment (updating the
top-level pointer when it is not from a sub-agent). -/
def respAttach (st1 : RState) (tc2 : ToolCall) : RState :=
  if tc2.core.fromSubAgent && st1.lastIdx.isSome then
    let segs2 :=
      listModify (st1.lastIdx.getD 0) (ContentSegment.mapTool (fun p => p.pushSub tc2))
        st1.segs
    { st1 with segs := segs2 }
  else
    let idx := st1.segs.length
    let st2 := pushRSeg st1 (ContentSegment.tool tc2)
    if !tc2.core.fromSubAgent then { st2 with lastIdx := some idx } else st2

/-- One response item of `JsonLogParser.parseResponse` (`rest` is the
list of items after the current one, used by the file-edit
collection). -/
def respStep (toolCallResults toolCallRounds : Option Json) (item : Json)
    (rest : List Json) (st : RState) : Except Unit RState := do
  let kind ← jsAccess (some item) "kind"
  if jsTruthy kind &&
      (match kind with
       | some (Json.str k) => skipKindsList.contains k
       | _ => false) then
    Except.ok st
  else if isStrVal kind "thinking" then
    let value := jsField item "value"
    let done := jsAccessOpt (jsField item "metadata") "vscodeReasoningDone"
    if !jsTruthy value || jsTruthy done then Except.ok st
    else
      let idV := jsField item "id"
      if jsTruthy idV &&
          st.seen.any (fun x =>
            match idV with
            | some v => jsonBeq x v
            | none => false) then
        Except.ok st
      else
        let st1 :=
          if jsTruthy idV then { st with seen := st.seen ++ [idV.getD Json.null] }
          else st
        let st2 := flushAccText st1
        Except.ok (pushRSeg st2 (ContentSegment.thinking (jsStrOf value)))
  else if isStrVal kind "inlineReference" && jsTruthy (jsField item "inlineReference") then
    let inlineRef := jsField item "inlineReference"
    let nameTop := jsField item "name"
    let refName :=
      if jsTruthy nameTop then nameTop
      else
        let n2 := jsFieldO inlineRef "name"
        if jsTruthy n2 then n2 else some (Json.str "")
    if jsTruthy refName then
      match refName with
      | some (Json.str s) =>
        if strIncludes s "/" || fileSuffixTest s then
          Except.ok { st with acc := st.acc ++ "[" ++ s ++ "](" ++ s ++ ")" }
        else
          Except.ok { st with acc := st.acc ++ "`" ++ s ++ "`" }
      | _ => Except.error ()
    else Except.ok st
  else
    let valueV := jsField item "value"
    let isStrTruthy : Bool := match valueV with
      | some (Json.str s) => s != ""
      | _ => false
    if isStrTruthy then
      (match valueV with
       | some (Json.str s) =>
         let trimmed := jsTrim s
         if trimmed ≠ "" && !onlyFenceMarkers trimmed then
           Except.ok { st with acc := st.acc ++ s }
         else Except.ok st
       | _ => Except.ok st)
    else if isStrVal kind "toolInvocationSerialized" then do
      let st1 := flushAccText st
      let tc ← parseToolCallFromItem item toolCallResults toolCallRounds
      if isStrVal (jsField item "toolId") "copilot_multiReplaceString" ||
          isStrVal (jsField item "toolId") "copilot_replaceString" then do
        let fes ← collectFileEdits rest
        Except.ok (respAttach st1 (if fes.isEmpty then tc
          else ToolCall.mk { tc.core with fileEdits := some fes } tc.subAgentCalls))
      else Except.ok (respAttach st1 tc)
    else Except.ok st

/-- The response-item loop. -/
def respLoop (toolCallResults toolCallRounds : Option Json) :
    List Json → RState → Except Unit RState
  | [], st => Except.ok st
  | item :: rest, st => do
    let st2 ← respStep toolCallResults toolCallRounds item rest st
    respLoop toolCallResults toolCallRounds rest st2

/-- `JsonLogParser.parseResponse`. -/
def parseResponse (requestId : String) (responseItems : List Json)
    (toolCallResults toolCallRounds : Option Json) : Except Unit (Option ChatMessage) := do
  let st0 : RState := { segs := [], order := 0, acc := "", lastIdx := none, seen := [] }
  let st1 ← respLoop toolCallResults toolCallRounds responseItems st0
  let st2 := flushAccText st1
  if st2.segs.isEmpty then Except.ok none
  else
    Except.ok (some
      { id := requestId ++ "_response", role := MessageRole.assistant
      , contentSegments := st2.segs })

/-- `JsonLogParser.parseVariableData`. -/
def parseVariableData (vd : Option Json) : Except Unit (Option (List VariableData)) := do
  let vars := jsAccessOpt vd "variables"
  if !jsTruthy vars then Except.ok none
  else
    match vars with
    | some (Json.arr xs) => do
      let out ← xs.mapM (fun v => do
        let kind ← jsAccess (some v) "kind"
        let name ← jsAccess (some v) "name"
        let descr ← jsAccess (some v) "modelDescription"
        let value ← jsAccess (some v) "value"
        pure ({ kind := kind, name := name, description := descr, value := value } :
          VariableData))
      Except.ok (some out)
    | _ => Except.error ()

/-- One `request` of `JsonLogParser.parse`'s loop: possibly a user
message, then possibly an assistant message from the response items. -/
def jsonRequestStep (request : Json) : Except Unit (List ChatMessage) := do
  let msgJ ← jsAccess (some request) "message"
  let textJ ← jsAccess msgJ "text"
  let userMsgs ←
    if jsTruthy textJ then do
      let vd ← parseVariableData (jsField request "variableData")
      Except.ok [{ id := jsStrOf (jsField request "requestId"), role := MessageRole.user
                 , contentSegments := [ContentSegment.text (jsStrOf textJ) 0]
                 , variableData := vd }]
    else Except.ok ([] : List ChatMessage)
  let resp := jsField request "response"
  let lenPos := match resp with
    | some (Json.arr xs) => !xs.isEmpty
    | some (Json.str s) => s ≠ ""
    | _ => false
  if jsTruthy resp && lenPos then do
    let toolCallResults :=
      jsAccessOpt (jsAccessOpt (jsField request "result") "metadata") "toolCallResults"
    let toolCallRounds :=
      jsAccessOpt (jsAccessOpt (jsField request "result") "metadata") "toolCallRounds"
    let respMsg ← parseResponse (jsToStringO (jsField request "requestId"))
      (jsIndexItems resp) toolCallResults toolCallRounds
    match respMsg with
    | some m => Except.ok (userMsgs ++ [m])
    | none => Except.ok userMsgs
  else Except.ok userMsgs

/-- The body of `JsonLogParser.parse`'s `try` block, producing the
message list. -/
def jsonRunData (data : Json) : Except Unit (List ChatMessage) := do
  let reqsV ← jsAccess (some data) "requests"
  let reqs ← jsIterate reqsV
  reqs.foldlM (fun acc req => do
    let more ← jsonRequestStep req
    pure (acc ++ more)) ([] : List ChatMessage)

/-- The body of `JsonLogParser.parse`'s `try` block: `JSON.parse`, then
the request walk. -/
def jsonRun (jsonText : String) : Except Unit (List ChatMessage) :=
  match jsonParse jsonText with
  | some v => jsonRunData v
  | none => Except.error ()

/-- The `reduce` computing `toolCallCount` (tool-call segments per
message, summed). -/
def countToolCallsFold (messages : List ChatMessage) : Nat :=
  messages.foldl (fun count msg =>
    count + (msg.contentSegments.filter ContentSegment.isTool).length) 0

/-- `JsonLogParser.parse` / `parseJsonLog`: the whole parse inside the
`try`, with the `catch` re-raising the single classified error. -/
def parseJsonLog (jsonText : String) : Except String ParsedSession :=
  match jsonRun jsonText with
  | Except.ok messages =>
    Except.ok
      { messages := messages
      , metadata :=
        { totalMessages := messages.length
        , toolCallCount := countToolCallsFold messages
        , fileCount := 0 } }
  | Except.error _ => Except.error "Invalid JSON chat export format"

/-! ## ChatReplay Parser (src/lib/parser/chatreplay-parser.ts) -/

/-- `ChatReplayParser.mapToolNameToType` (case-sensitive substring
rules on the tool name). -/
def chatToolType (toolName : String) : ToolCallType :=
  if toolName = "runSubagent" then ToolCallType.subagent
  else if strIncludes toolName "replace" || strIncludes toolName "edit" then
    ToolCallType.replace
  else if strIncludes toolName "test" then ToolCallType.test
  else if strIncludes toolName "read" then ToolCallType.read
  else if strIncludes toolName "search" then ToolCallType.search
  else if strIncludes toolName "navigate" then ToolCallType.navigate
  else if strIncludes toolName "click" then ToolCallType.click
  else if strIncludes toolName "type" then ToolCallType.typ
  else if strIncludes toolName "screenshot" || strIncludes toolName "snapshot" then
    ToolCallType.screenshot
  else if strIncludes toolName "run" || strIncludes toolName "terminal" then
    ToolCallType.run
  else if strIncludes toolName "todo" then ToolCallType.todo
  else ToolCallType.other

/-- `ChatReplayParser.extractFileName` (`parts[parts.length-1] || path`). -/
def extractFileName (path : String) : String :=
  let last := (strSplitOn path "/").getLastD ""
  if last ≠ "" then last else path

/-- `ChatReplayParser.generateActionLabel`: lookup table keyed by exact
tool name; a truthy non-string path argument throws inside
`extractFileName` (caught by the tool-call-level `catch`). -/
def generateActionLabel (toolName : String) (args : Json) : Except Unit String :=
  if toolName = "read_file" then do
    let fp ← jsAccess (some args) "filePath"
    if jsTruthy fp then
      match fp with
      | some (Json.str s) => Except.ok ("Read " ++ extractFileName s)
      | _ => Except.error ()
    else Except.ok "Read file"
  else if toolName = "list_dir" then do
    let p ← jsAccess (some args) "path"
    if jsTruthy p then
      match p with
      | some (Json.str s) => Except.ok ("List " ++ extractFileName s)
      | _ => Except.error ()
    else Except.ok "List directory"
  else if toolName = "grep_search" || toolName = "semantic_search" then do
    let q ← jsAccess (some args) "query"
    if jsTruthy q then Except.ok ("Search for \"" ++ jsToStringO q ++ "\"")
    else Except.ok "Search"
  else if toolName = "replace_string_in_file" then do
    let fp ← jsAccess (some args) "filePath"
    if jsTruthy fp then
      match fp with
      | some (Json.str s) => Except.ok ("Edit " ++ extractFileName s)
      | _ => Except.error ()
    else Except.ok "Edit file"
  else if toolName = "multi_replace_string_in_file" then Except.ok "Edit multiple files"
  else if toolName = "run_in_terminal" then do
    let c ← jsAccess (some args) "command"
    if jsTruthy c then Except.ok ("Run " ++ jsToStringO c)
    else Except.ok "Run command"
  else if toolName = "runSubagent" then do
    let d ← jsAccess (some args) "description"
    if jsTruthy d then Except.ok (jsToStringO d)
    else Except.ok "Run subagent"
  else if toolName = "manage_todo_list" then Except.ok "Update tasks"
  else if toolName = "runTests" then Except.ok "Run tests"
  else Except.ok (String.mk (toolName.data.map (fun c => if c = '_' then ' ' else c)))

/-- The normalized-result-count derivation site of the ChatReplay
parser (computed only for `search`-typed calls;
`countSource = output || action`). -/
def chatDeriveCount (output : Option String) (action : String) : Option Nat :=
  let countSource := match output with
    | some o => if o != "" then o else action
    | none => action
  match countResultsMatch countSource with
  | some n => some n
  | none => if hasNoResultsPhrase countSource then some 0 else none

/-- The body of `ChatReplayParser.parseToolCall`'s `try` block. -/
def chatParseToolCallE (log : Json) : Except Unit ToolCall := do
  let args ← match jsonParse (jsToStringO (jsField log "args")) with
    | some v => Except.ok v
    | none => Except.error ()
  let toolStr ← match jsField log "tool" with
    | some (Json.str s) => Except.ok s
    | _ => Except.error ()
  let type := chatToolType toolStr
  let action ← generateActionLabel toolStr args
  let pathV ← jsAccess (some args) "path"
  let inputV :=
    if jsTruthy pathV then pathV
    else
      let fp := jsField args "filePath"
      if jsTruthy fp then fp
      else
        let q := jsField args "query"
        if jsTruthy q then q
        else
          let c := jsField args "command"
          if jsTruthy c then c
          else
            let pr := jsField args "prompt"
            if jsTruthy pr then pr else none
  let respV := jsField log "response"
  let output : Option String :=
    if !jsTruthy respV then none
    else
      match respV with
      | some (Json.arr xs) => some (jsJoin "\n" xs)
      | some (Json.str s) => some s
      | some (Json.obj fs) => some (jsonStringify2 (Json.obj fs) 0)
      | _ => none
  let nrc : Option Nat :=
    if type = ToolCallType.search then chatDeriveCount output action else none
  Except.ok (ToolCall.mk
    { type := type, action := action, rawAction := some action
    , status := some TCStatus.completed, toolCallId := jsField log "id"
    , input := inputV, output := output.map Json.str
    , isSubagentRoot := type = ToolCallType.subagent
    , normalizedResultCount := nrc } [])

/-- `ChatReplayParser.parseToolCall` with its own try/catch: a failure
yields `null` (the call is skipped, not fatal). -/
def chatParseToolCall (log : Json) : Option ToolCall :=
  (chatParseToolCallE log).toOption

/-- The mutable per-prompt state of `ChatReplayParser.parse`. -/
structure CState where
  segs : List ContentSegment
  order : Nat
  acc : String
  lastIdx : Option Nat

/-- Append one segment with the running order counter. -/
def pushCSeg (st : CState) (mk : Nat → ContentSegment) : CState :=
  { st with segs := st.segs ++ [mk st.order], order := st.order + 1 }

/-- Flush the accumulated text when nonempty after trimming. -/
def flushC (st : CState) : CState :=
  let t := jsTrim st.acc
  if t ≠ "" then { pushCSeg st (ContentSegment.text t) with acc := "" }
  else st

/-- Is this content entry a thinking-typed item
(`item.type === 2 && item.value?.type === 'thinking' &&
item.value.thinking?.text`)? -/
def thinkingTextOf (item : Json) : Except Unit (Option String) := do
  let tV ← jsAccess (some item) "type"
  let vV := jsField item "value"
  let vType := jsAccessOpt vV "type"
  let thText := jsAccessOpt (jsAccessOpt vV "thinking") "text"
  if (match tV with
      | some (Json.num n) => n = 2
      | _ => false) &&
      isStrVal vType "thinking" && jsTruthy thText then
    Except.ok (some (jsStrOf thText))
  else Except.ok none

/-- One item of the response-content thinking walk: emit a `thinking`
segment when the item is a thinking entry. -/
def chatThinkItemStep (s : CState) (item : Json) : Except Unit CState := do
  let th ← thinkingTextOf item
  match th with
  | some text => pure (pushCSeg s (ContentSegment.thinking text))
  | none => pure s

/-- One request message of the `requestMessages.messages` walk: walk
its `content` array (when it is an array) for thinking entries. -/
def chatMsgStep (s : CState) (msg : Json) : Except Unit CState := do
  let contentV ← jsAccess (some msg) "content"
  match contentV with
  | some (Json.arr items) => items.foldlM chatThinkItemStep s
  | _ => pure s

/-- One log entry of `ChatReplayParser.parse`'s inner loop. -/
def chatLogStep (st : CState) (log : Json) : Except Unit CState := do
  let kindV ← jsAccess (some log) "kind"
  if isStrVal kindV "request" && isStrVal (jsField log "type") "ChatMLSuccess" then do
    let st1 := flushC st
    let respContent := jsAccessOpt (jsField log "response") "content"
    let st2 ←
      if jsTruthy respContent then do
        let items ← jsIterate respContent
        items.foldlM chatThinkItemStep st1
      else pure st1
    let reqMsgs := jsAccessOpt (jsField log "requestMessages") "messages"
    let st3 ←
      if jsTruthy reqMsgs then do
        let msgs ← jsIterate reqMsgs
        msgs.foldlM chatMsgStep st2
      else pure st2
    match jsAccessOpt (jsField log "response") "message" with
    | some (Json.arr xs) =>
      let responseText := jsTrim (jsJoin "" xs)
      if responseText ≠ "" then pure { st3 with acc := st3.acc ++ responseText ++ "\n" }
      else pure st3
    | _ => pure st3
  else if isStrVal kindV "toolCall" then do
    let st1 := flushC st
    match chatParseToolCall log with
    | some tc =>
      if tc.core.fromSubAgent && st1.lastIdx.isSome then
        let segs2 :=
          listModify (st1.lastIdx.getD 0) (ContentSegment.mapTool (fun p => p.pushSub tc))
            st1.segs
        pure { st1 with segs := segs2 }
      else
        let idx := st1.segs.length
        let st2 := pushCSeg st1 (ContentSegment.tool tc)
        pure (if !tc.core.fromSubAgent then { st2 with lastIdx := some idx } else st2)
    | none => pure st1
  else pure st

/-- One prompt of `ChatReplayParser.parse`'s outer loop: the
(unconditional) user message, then the assistant segments from the
logs. -/
def chatPromptStep (messages : List ChatMessage) (prompt : Json) :
    Except Unit (List ChatMessage) := do
  let promptText ← jsAccess (some prompt) "prompt"
  let userMessage : ChatMessage :=
    { id := "prompt_" ++ toString messages.length, role := MessageRole.user
    , contentSegments := [ContentSegment.text (jsStrOf promptText) 0] }
  let messages1 := messages ++ [userMessage]
  let logsV ← jsAccess (some prompt) "logs"
  let logs ← jsIterate logsV
  let st0 : CState := { segs := [], order := 0, acc := "", lastIdx := none }
  let stF ← logs.foldlM chatLogStep st0
  let stF2 := flushC stF
  if !stF2.segs.isEmpty then
    Except.ok (messages1 ++
      [{ id := "response_" ++ toString messages1.length
       , role := MessageRole.assistant, contentSegments := stF2.segs }])
  else Except.ok messages1

/-- The body of `ChatReplayParser.parse`'s `try` block, producing the
message list. -/
def chatRunData (data : Json) : Except Unit (List ChatMessage) := do
  let promptsV ← jsAccess (some data) "prompts"
  let prompts ← jsIterate promptsV
  prompts.foldlM chatPromptStep []

/-- The body of `ChatReplayParser.parse`'s `try` block: `JSON.parse`,
then the prompt walk. -/
def chatRun (jsonText : String) : Except Unit (List ChatMessage) :=
  match jsonParse jsonText with
  | some v => chatRunData v
  | none => Except.error ()

/-- `ChatReplayParser.parse` / `parseChatReplayLog`, with the `catch`
re-raising the single classified error. -/
def parseChatReplayLog (jsonText : String) : Except String ParsedSession :=
  match chatRun jsonText with
  | Except.ok messages =>
    Except.ok
      { messages := messages
      , metadata :=
        { totalMessages := messages.length
        , toolCallCount := countToolCallsFold messages
        , fileCount := 0 } }
  | Except.error _ => Except.error "Invalid chatreplay format"

/-- `parseLog` (src/unnamed/part_001): the single entry point,
dispatching on the detected format (only the `json` format is routed
away from the text parser in this revision). -/
def parseLog (content : String) : Except String ParsedSession :=
  if detectLogFormat content = LogFormat.json then parseJsonLog content
  else Except.ok (copilotParse content)

/-! ## Specification-side definitions and projections -/

/-- Within one message, segment `order` values equal the segment's
position in the list (`0..N-1`). -/
def segOrdersOk (segs : List ContentSegment) : Prop :=
  segs.map ContentSegment.order = List.range segs.length

instance (segs : List ContentSegment) : Decidable (segOrdersOk segs) := by
  unfold segOrdersOk; infer_instance

/-- The ordering invariant over a whole session. -/
def sessionOrdersOk (s : ParsedSession) : Prop :=
  ∀ m ∈ s.messages, segOrdersOk m.contentSegments

instance (s : ParsedSession) : Decidable (sessionOrdersOk s) := by
  unfold sessionOrdersOk; infer_instance

/-- The session projection of a fallible parse. -/
def okSession : Except String ParsedSession → Option ParsedSession
  | Except.ok s => some s
  | Except.error _ => none

/-- Number of user messages. -/
def userMsgCount (s : ParsedSession) : Nat :=
  (s.messages.filter (fun m => m.role == MessageRole.user)).length

/-- Number of `thinking` segments over all messages. -/
def thinkingCount (s : ParsedSession) : Nat :=
  (s.messages.map (fun m => (m.contentSegments.filter ContentSegment.isThinking).length)).sum

/-- Top-level tool calls of a message, in segment order. -/
def toolCallsOfMessage (m : ChatMessage) : List ToolCall :=
  m.contentSegments.filterMap ContentSegment.toolCall?

/-- Top-level tool calls of a session. -/
def sessionToolCalls (s : ParsedSession) : List ToolCall :=
  (s.messages.map toolCallsOfMessage).flatten

/-- Specification count of `tool_call` segments (top-level only, summed
over the messages). -/
def specToolCallCount (messages : List ChatMessage) : Nat :=
  (messages.map (fun m => (m.contentSegments.filter ContentSegment.isTool).length)).sum

/-- Specification count of recorded file references. -/
def specFileRefCount (messages : List ChatMessage) : Nat :=
  (messages.map (fun m => m.fileReferences.length)).sum

/-- Is this value a truthy *scalar* (non-null primitive), as the claim
about the format detector words it? -/
def truthyScalar : Option Json → Bool
  | some (Json.bool b) => b
  | some (Json.num n) => n ≠ 0
  | some (Json.str s) => s ≠ ""
  | _ => false

/-- Modelled from the claim's words for C3 (including the `scalar`
qualification on `exportedAt`): trimmed input not starting with a brace
is `text`; a parse failure is `text`; an array `prompts` field together
with a truthy scalar `exportedAt` is `chatreplay`; else an array
`requests` field is `json`; else `text`. -/
def detectLogFormatSpecClaim (content : String) : LogFormat :=
  if !(strStartsWith (jsTrim content) "\x7b") then LogFormat.text
  else
    match jsonParse content with
    | none => LogFormat.text
    | some v =>
      if (match jsField v "prompts" with
          | some (Json.arr _) => true
          | _ => false) && truthyScalar (jsField v "exportedAt") then
        LogFormat.chatreplay
      else if (match jsField v "requests" with
          | some (Json.arr _) => true
          | _ => false) then
        LogFormat.json
      else LogFormat.text

/-- Modelled from the claim's words for C3 as amended (the `exportedAt`
probe is plain JavaScript truthiness, with no scalar restriction). -/
def detectLogFormatSpecAmended (content : String) : LogFormat :=
  if !(strStartsWith (jsTrim content) "\x7b") then LogFormat.text
  else
    match jsonParse content with
    | none => LogFormat.text
    | some v =>
      if (match jsField v "prompts" with
          | some (Json.arr _) => true
          | _ => false) && jsTruthy (jsField v "exportedAt") then
        LogFormat.chatreplay
      else if (match jsField v "requests" with
          | some (Json.arr _) => true
          | _ => false) then
        LogFormat.json
      else LogFormat.text

/-- The shared normalized-result-count rule, as the spec words it: the
candidate string is the output, falling back to the raw action; a
contained `<n> result(s)` gives `n`; else a case-insensitive
`no results`/`no matches`, or an output equal to the literal
`0 results`, gives `0`; otherwise the count is absent. -/
def sharedCountRule (output : Option String) (fallback : String) : Option Nat :=
  let candidate := match output with
    | some o => if o != "" then o else fallback
    | none => fallback
  match countResultsMatch candidate with
  | some n => some n
  | none =>
    if hasNoResultsPhrase candidate || output == some "0 results" then some 0
    else none

/-- Does this response item carry collectable text edits
(`textEditGroup` kind with truthy `uri` and `edits`)? -/
def isEditGroupItem (item : Json) : Bool :=
  isStrVal (jsField item "kind") "textEditGroup" &&
    jsTruthy (jsField item "uri") && jsTruthy (jsField item "edits")

/-- The file edits contributed by one `textEditGroup` item (first entry
of each edit array, under the group's file path). -/
def editsOfGroupItem (item : Json) : List FileEdit :=
  match jsField item "edits" with
  | some (Json.arr eas) =>
    eas.filterMap (editsFilterF (extractFilePath (jsField item "uri")))
  | _ => []

/-- Is this item substantive text (a nonempty string value that is not
solely a fence marker)? -/
def substantiveTextItem (item : Json) : Bool :=
  match jsField item "value" with
  | some (Json.str s) => s != "" && jsTrim s != "" && !isBareFence (jsTrim s)
  | _ => false

/-- Modelled from the claim's words for C9: collect the *consecutive*
`textEditGroup` entries, stopping at the next substantive *content*
item (substantive text, a tool invocation, or a thinking block). -/
def collectFileEditsClaim : List Json → List FileEdit
  | [] => []
  | item :: rest =>
    if isEditGroupItem item then
      editsOfGroupItem item ++ collectFileEditsClaim rest
    else if substantiveTextItem item ||
        isStrVal (jsField item "kind") "toolInvocationSerialized" ||
        isStrVal (jsField item "kind") "thinking" then []
    else collectFileEditsClaim rest

/-- Modelled from the claim for C9 as amended: scan forward collecting
`textEditGroup` entries, stopping only at the next substantive *text*
item; items of any other kind do not stop the scan.  (Dynamic access
errors propagate as in the code: reading `value` of a `null` item and
walking a non-iterable `edits` throw.) -/
def collectFileEditsSpec : List Json → Except Unit (List FileEdit)
  | [] => Except.ok []
  | item :: rest => do
    let v ← jsAccess (some item) "value"
    if isBreakValue v then Except.ok []
    else if isEditGroupItem item then do
      let _ ← jsIterate (jsField item "edits")
      let more ← collectFileEditsSpec rest
      Except.ok (editsOfGroupItem item ++ more)
    else collectFileEditsSpec rest

/-! ## Ordering-invariant lemmas (claim C1) -/

/-- `mapTool` does not change a segment's order. -/
theorem mapTool_order (f : ToolCall → ToolCall) (x : ContentSegment) :
    (ContentSegment.mapTool f x).order = x.order := by
  cases x <;> rfl

/-- `listModify` preserves length. -/
theorem listModify_length (f : α → α) : ∀ (l : List α) (i : Nat),
    (listModify i f l).length = l.length := by
  intro l
  induction l with
  | nil => intro i; simp [listModify]
  | cons x t ih =>
    intro i
    cases i with
    | zero => rfl
    | succ j => simp [listModify, ih]

/-- `listModify` with an order-preserving segment update preserves the
order image. -/
theorem listModify_map_order (f : ToolCall → ToolCall) :
    ∀ (l : List ContentSegment) (i : Nat),
    (listModify i (ContentSegment.mapTool f) l).map ContentSegment.order =
      l.map ContentSegment.order := by
  intro l
  induction l with
  | nil => intro i; simp [listModify]
  | cons x t ih =>
    intro i
    cases i with
    | zero => simp [listModify, mapTool_order]
    | succ j => simp [listModify, ih]

/-- Ordering invariant is preserved by a modification of one tool
call. -/
theorem segOrdersOk_listModify (f : ToolCall → ToolCall) (l : List ContentSegment)
    (i : Nat) (h : segOrdersOk l) :
    segOrdersOk (listModify i (ContentSegment.mapTool f) l) := by
  unfold segOrdersOk at h ⊢
  rw [listModify_map_order, listModify_length, h]

/-- Appending one segment carrying the next order value preserves the
invariant. -/
theorem segOrdersOk_append (l : List ContentSegment) (x : ContentSegment)
    (h : segOrdersOk l) (hx : x.order = l.length) :
    segOrdersOk (l ++ [x]) := by
  unfold segOrdersOk at h ⊢
  simp [h, hx, List.range_succ]

/-- The ordering part of the text-parser loop invariant. -/
def TextInv (st : TextState) : Prop :=
  (∀ m ∈ st.messages, segOrdersOk m.contentSegments) ∧
    segOrdersOk st.segs ∧ st.orderC = st.segs.length

/-- `pushSeg` preserves the invariant for constructors that store the
given order value. -/
theorem TextInv_pushSeg (st : TextState) (mk : Nat → ContentSegment)
    (hmk : (mk st.orderC).order = st.orderC) (h : TextInv st) :
    TextInv (pushSeg st mk) := by
  obtain ⟨hm, hs, ho⟩ := h
  refine ⟨hm, ?_, ?_⟩
  · exact segOrdersOk_append _ _ hs (by rw [hmk, ho])
  · simp [pushSeg, ho]

/-- `flushText` preserves the invariant. -/
theorem TextInv_flushText (st : TextState) (h : TextInv st) :
    TextInv (flushText st) := by
  unfold flushText
  split
  · exact h
  · dsimp only
    split
    · exact ⟨h.1, h.2.1, h.2.2⟩
    · have hp := TextInv_pushSeg st
        (ContentSegment.text (jsTrim (String.intercalate "\n" st.content))) rfl h
      exact ⟨hp.1, hp.2.1, hp.2.2⟩

/-- `flushTextFiltered` preserves the invariant. -/
theorem TextInv_flushTextFiltered (st : TextState) (h : TextInv st) :
    TextInv (flushTextFiltered st) := by
  unfold flushTextFiltered
  split
  · exact h
  · dsimp only
    split
    · exact ⟨h.1, h.2.1, h.2.2⟩
    · have hp := TextInv_pushSeg st
        (ContentSegment.text
          (jsTrim (String.intercalate "\n" (st.content.filter (fun s => s ≠ ""))))) rfl h
      exact ⟨hp.1, hp.2.1, hp.2.2⟩

/-- An elementwise property survives `listModify` with a
property-preserving update. -/
theorem listModify_forall (P : α → Prop) (g : α → α) (hg : ∀ x, P x → P (g x)) :
    ∀ (l : List α) (i : Nat), (∀ x ∈ l, P x) → ∀ x ∈ listModify i g l, P x := by
  intro l
  induction l with
  | nil => intro i h x hx; simp [listModify] at hx
  | cons a t ih =>
    intro i h x hx
    cases i with
    | zero =>
      simp [listModify] at hx
      rcases hx with hx | hx
      · exact hx ▸ hg a (h a (by simp))
      · exact h x (List.mem_cons_of_mem _ hx)
    | succ j =>
      simp [listModify] at hx
      rcases hx with hx | hx
      · exact hx ▸ h a (by simp)
      · exact ih j (fun y hy => h y (List.mem_cons_of_mem _ hy)) x hx

/-- `mutateLastTool` preserves the invariant. -/
theorem TextInv_mutateLastTool (st : TextState) (f : ToolCall → ToolCall)
    (h : TextInv st) : TextInv (mutateLastTool st f) := by
  obtain ⟨hm, hs, ho⟩ := h
  unfold mutateLastTool
  split
  · exact ⟨hm, segOrdersOk_listModify _ _ _ hs, by
      simpa [listModify_length] using ho⟩
  · refine ⟨?_, hs, ho⟩
    intro m hmem
    simp only at hmem
    exact listModify_forall (fun msg => segOrdersOk msg.contentSegments) _
      (fun msg hmsg => segOrdersOk_listModify _ _ _ hmsg) st.messages _ hm m hmem
  · exact ⟨hm, hs, ho⟩

/-- The empty segment list satisfies the invariant. -/
theorem segOrdersOk_nil : segOrdersOk [] := by
  simp [segOrdersOk]

/-- `finalizeMessage` preserves the invariant. -/
theorem TextInv_finalizeMessage (st : TextState) (h : TextInv st) :
    TextInv (finalizeMessage st) := by
  unfold finalizeMessage
  split
  · exact h
  · dsimp only
    have h1 := TextInv_flushText st h
    refine ⟨?_, h1.2.1, h1.2.2⟩
    intro m hm
    dsimp only at hm
    split at hm
    · simp only [List.mem_append, List.mem_singleton] at hm
      rcases hm with hin | hnew
      · exact h1.1 m hin
      · subst hnew
        exact h1.2.1
    · exact h1.1 m hm

/-- `startMessage` preserves the invariant (fresh segment list and
counter). -/
theorem TextInv_startMessage (st : TextState) (role : MessageRole) (c : String)
    (h : TextInv st) : TextInv (startMessage st role c) := by
  unfold startMessage
  dsimp only
  have h1 := TextInv_finalizeMessage st h
  exact ⟨h1.1, segOrdersOk_nil, rfl⟩

/-- A fold preserves any per-step invariant. -/
theorem foldl_inv {σ α : Type} {P : σ → Prop} (f : σ → α → σ)
    (h : ∀ s a, P s → P (f s a)) : ∀ (l : List α) (s : σ), P s → P (List.foldl f s l) := by
  intro l
  induction l with
  | nil => intro s hs; exact hs
  | cons a t ih => intro s hs; exact ih (f s a) (h s a hs)

/-- The invariant only depends on the messages, segments and counter
fields. -/
theorem TextInv_of_eq {st st' : TextState} (h : TextInv st)
    (hm : st'.messages = st.messages) (hs : st'.segs = st.segs)
    (ho : st'.orderC = st.orderC) : TextInv st' := by
  refine ⟨?_, ?_, ?_⟩
  · rw [hm]; exact h.1
  · rw [hs]; exact h.2.1
  · rw [ho, hs]; exact h.2.2

/-- Rule 10 preserves the invariant. -/
theorem TextInv_stage11 (line : String) (st : TextState) (h : TextInv st) :
    TextInv (stage11 line st) := by
  unfold stage11
  split
  · exact ⟨h.1, h.2.1, h.2.2⟩
  · exact h

/-- Rule 9 preserves the invariant. -/
theorem TextInv_stage10 (line : String) (st : TextState) (h : TextInv st) :
    TextInv (stage10 line st) := by
  unfold stage10
  split
  · exact ⟨h.1, h.2.1, h.2.2⟩
  · exact TextInv_stage11 line st h

/-- Rule 8 preserves the invariant. -/
theorem TextInv_stage9 (line : String) (st : TextState) (h : TextInv st) :
    TextInv (stage9 line st) := by
  unfold stage9
  split
  · rename_i tc val htc hcur
    dsimp only
    have h1 := TextInv_flushText st h
    have h2 := TextInv_pushSeg (flushText st) (ContentSegment.tool tc) rfl h1
    exact ⟨h2.1, h2.2.1, h2.2.2⟩
  · exact TextInv_stage10 line st h

/-- Rule 7 preserves the invariant. -/
theorem TextInv_stage8 (line : String) (st : TextState) (h : TextInv st) :
    TextInv (stage8 line st) := by
  unfold stage8
  split
  · split
    · dsimp only
      split
      · split
        · split
          · exact ⟨(TextInv_mutateLastTool st _ h).1, (TextInv_mutateLastTool st _ h).2.1,
              (TextInv_mutateLastTool st _ h).2.2⟩
          · exact ⟨h.1, h.2.1, h.2.2⟩
        · exact ⟨(TextInv_mutateLastTool st _ h).1, (TextInv_mutateLastTool st _ h).2.1,
            (TextInv_mutateLastTool st _ h).2.2⟩
      · exact ⟨h.1, h.2.1, h.2.2⟩
    · exact h
  · exact TextInv_stage9 line st h

/-- Rule 6 preserves the invariant. -/
theorem TextInv_stage7 (line : String) (st : TextState) (h : TextInv st) :
    TextInv (stage7 line st) := by
  unfold stage7
  split
  · rename_i fr val hfr hcur
    dsimp only
    split
    · have h1 : TextInv { st with fileRefs := st.fileRefs ++ [fr] } :=
        ⟨h.1, h.2.1, h.2.2⟩
      have h2 := TextInv_flushTextFiltered _ h1
      exact TextInv_of_eq (TextInv_pushSeg _ (ContentSegment.tool _) rfl h2) rfl rfl rfl
    · exact ⟨h.1, h.2.1, h.2.2⟩
  · exact TextInv_stage8 line st h

/-- Rule 5 preserves the invariant. -/
theorem TextInv_stage6 (line : String) (st : TextState) (h : TextInv st) :
    TextInv (stage6 line st) := by
  unfold stage6
  split
  · exact TextInv_startMessage st _ _ h
  · exact TextInv_stage7 line st h

/-- Rule 4 preserves the invariant. -/
theorem TextInv_stage5 (line : String) (st : TextState) (h : TextInv st) :
    TextInv (stage5 line st) := by
  unfold stage5
  split
  · exact TextInv_startMessage st _ _ h
  · exact TextInv_stage6 line st h

/-- Rule 3 preserves the invariant. -/
theorem TextInv_stage4 (line : String) (st : TextState) (h : TextInv st) :
    TextInv (stage4 line st) := by
  unfold stage4
  split
  · dsimp only
    have h1 : TextInv { st with toolLines := st.toolLines ++ [line] } :=
      ⟨h.1, h.2.1, h.2.2⟩
    split
    · split
      · exact TextInv_of_eq (TextInv_mutateLastTool _ _ h1) rfl rfl rfl
      · exact h1
    · split
      · refine TextInv_stage5 line _ ?_
        split
        · exact TextInv_of_eq (TextInv_mutateLastTool _ _ h1) rfl rfl rfl
        · exact h1
      · exact h1
  · exact TextInv_stage5 line st h

/-- Rule 2 (body) preserves the invariant. -/
theorem TextInv_stage3 (line : String) (st : TextState) (h : TextInv st) :
    TextInv (stage3 line st) := by
  unfold stage3
  split
  · exact ⟨h.1, h.2.1, h.2.2⟩
  · exact TextInv_stage4 line st h

/-- Rule 2 (toggle) preserves the invariant. -/
theorem TextInv_stage2 (line : String) (st : TextState) (h : TextInv st) :
    TextInv (stage2 line st) := by
  unfold stage2
  dsimp only
  split
  · split
    · exact ⟨h.1, h.2.1, h.2.2⟩
    · split
      · exact ⟨h.1, h.2.1, h.2.2⟩
      · exact ⟨h.1, h.2.1, h.2.2⟩
  · exact TextInv_stage3 line st h

/-- Rule 1 preserves the invariant. -/
theorem TextInv_stage1 (line : String) (st : TextState) (h : TextInv st) :
    TextInv (stage1 line st) := by
  unfold stage1
  split
  · split
    · refine foldl_inv _ ?_ (splitPipeSearched line) (flushText st) (TextInv_flushText st h)
      intro s frag hs
      split
      · rename_i tc htc
        exact TextInv_of_eq (TextInv_pushSeg s (ContentSegment.tool tc) rfl hs) rfl rfl rfl
      · exact hs
    · exact TextInv_stage2 line st h
  · exact TextInv_stage2 line st h

/-- One loop iteration preserves the invariant. -/
theorem TextInv_stepLine (st : TextState) (line : String) (h : TextInv st) :
    TextInv (stepLine st line) :=
  TextInv_stage1 line st h

/-- Every session built by the text parser satisfies the per-message
ordering invariant. -/
theorem copilotParse_ordersOk (input : String) :
    sessionOrdersOk (copilotParse input) := by
  unfold copilotParse sessionOrdersOk
  dsimp only
  intro m hm
  have h0 : TextInv initTextState := ⟨by intro m hm; simp [initTextState] at hm,
    segOrdersOk_nil, rfl⟩
  have hF := foldl_inv stepLine (fun s a hs => TextInv_stepLine s a hs)
    (strSplitOn input "\n") initTextState h0
  have hFin := TextInv_finalizeMessage _ hF
  exact hFin.1 m hm

/-- The ordering part of the response-walker invariant. -/
def RInv (st : RState) : Prop :=
  segOrdersOk st.segs ∧ st.order = st.segs.length

/-- The invariant only depends on the segments and counter. -/
theorem RInv_of_eq {st st' : RState} (h : RInv st)
    (hs : st'.segs = st.segs) (ho : st'.order = st.order) : RInv st' := by
  refine ⟨?_, ?_⟩
  · rw [hs]; exact h.1
  · rw [ho, hs]; exact h.2

/-- `pushRSeg` preserves the invariant. -/
theorem RInv_push (st : RState) (mk : Nat → ContentSegment)
    (hmk : (mk st.order).order = st.order) (h : RInv st) : RInv (pushRSeg st mk) := by
  refine ⟨segOrdersOk_append _ _ h.1 (by rw [hmk, h.2]), ?_⟩
  simp [pushRSeg, h.2]

/-- `flushAccText` preserves the invariant. -/
theorem RInv_flush (st : RState) (h : RInv st) : RInv (flushAccText st) := by
  unfold flushAccText
  split
  · exact h
  · dsimp only
    refine RInv_of_eq ?_ rfl rfl
    refine foldl_inv _ ?_ (splitTextIntoSegments st.acc) st h
    intro s p hs
    split
    · exact RInv_push s (ContentSegment.text _) rfl hs
    · exact RInv_push s (ContentSegment.code _ _) rfl hs

/-- `listModify` of a tool segment preserves the invariant. -/
theorem RInv_modify (st : RState) (i : Nat) (f : ToolCall → ToolCall) (h : RInv st) :
    RInv { st with segs := listModify i (ContentSegment.mapTool f) st.segs } := by
  refine ⟨segOrdersOk_listModify _ _ _ h.1, ?_⟩
  simp [listModify_length, h.2]

/-- Reduction of a successful monadic bind in `Except`. -/
theorem exceptBind_ok (a : α) (f : α → Except ε β) :
    (Except.ok a >>= f : Except ε β) = f a := rfl

/-- Reduction of a failed monadic bind in `Except`. -/
theorem exceptBind_error (e : ε) (f : α → Except ε β) :
    ((Except.error e : Except ε α) >>= f) = Except.error e := rfl

/-- `respAttach` preserves the invariant. -/
theorem RInv_respAttach (st1 : RState) (tc2 : ToolCall) (h : RInv st1) :
    RInv (respAttach st1 tc2) := by
  unfold respAttach
  split
  · exact RInv_of_eq (RInv_modify _ _ _ h) rfl rfl
  · dsimp only
    split
    · exact RInv_of_eq (RInv_push _ _ rfl h) rfl rfl
    · exact RInv_push _ _ rfl h

/-- One response item preserves the invariant. -/
theorem RInv_respStep (tcr tcro : Option Json) (item : Json) (rest : List Json)
    (st st' : RState) (h : RInv st)
    (hstep : respStep tcr tcro item rest st = Except.ok st') : RInv st' := by
  unfold respStep at hstep
  cases hk : jsAccess (some item) "kind" with
  | error e =>
    rw [hk, exceptBind_error] at hstep
    exact Except.noConfusion hstep
  | ok kind =>
    rw [hk, exceptBind_ok] at hstep
    dsimp only at hstep
    repeat' split at hstep
    all_goals
      try (first
        | exact Except.noConfusion hstep
        | (refine (Except.ok.inj hstep) ▸ ?_
           first
             | exact h
             | exact RInv_of_eq h rfl rfl
             | exact RInv_push _ _ rfl (RInv_flush _ h)
             | exact RInv_push _ _ rfl (RInv_flush _ (RInv_of_eq h rfl rfl))
             | exact RInv_of_eq (RInv_push _ _ rfl (RInv_flush _ h)) rfl rfl
             | exact RInv_of_eq (RInv_modify _ _ _ (RInv_flush _ h)) rfl rfl))
    all_goals
      cases hptc : parseToolCallFromItem item tcr tcro with
      | error e =>
        rw [hptc, exceptBind_error] at hstep
        exact Except.noConfusion hstep
      | ok tc =>
        rw [hptc, exceptBind_ok] at hstep
        try dsimp only at hstep
        first
          | exact (Except.ok.inj hstep) ▸ RInv_respAttach _ _ (RInv_flush _ h)
          | (cases hfe : collectFileEdits rest with
             | error e =>
               rw [hfe, exceptBind_error] at hstep
               exact Except.noConfusion hstep
             | ok fes =>
               rw [hfe, exceptBind_ok] at hstep
               try dsimp only at hstep
               exact (Except.ok.inj hstep) ▸ RInv_respAttach _ _ (RInv_flush _ h))

/-- The response loop preserves the invariant. -/
theorem RInv_respLoop (tcr tcro : Option Json) :
    ∀ (items : List Json) (st st' : RState), RInv st →
    respLoop tcr tcro items st = Except.ok st' → RInv st' := by
  intro items
  induction items with
  | nil =>
    intro st st' h hstep
    exact (Except.ok.inj hstep) ▸ h
  | cons item rest ih =>
    intro st st' h hstep
    unfold respLoop at hstep
    cases h1 : respStep tcr tcro item rest st with
    | error e =>
      rw [h1, exceptBind_error] at hstep
      exact Except.noConfusion hstep
    | ok st2 =>
      rw [h1, exceptBind_ok] at hstep
      exact ih st2 st' (RInv_respStep tcr tcro item rest st st2 h h1) hstep

/-- Every assistant message built by `parseResponse` satisfies the
ordering invariant. -/
theorem parseResponse_ordersOk (requestId : String) (items : List Json)
    (tcr tcro : Option Json) (m : ChatMessage)
    (hm : parseResponse requestId items tcr tcro = Except.ok (some m)) :
    segOrdersOk m.contentSegments := by
  unfold parseResponse at hm
  dsimp only at hm
  cases h1 : respLoop tcr tcro items { segs := [], order := 0, acc := "", lastIdx := none, seen := [] } with
  | error e =>
    rw [h1, exceptBind_error] at hm
    exact Except.noConfusion hm
  | ok st1 =>
    rw [h1, exceptBind_ok] at hm
    try dsimp only at hm
    have hInv : RInv (flushAccText st1) :=
      RInv_flush _ (RInv_respLoop tcr tcro items _ st1 ⟨segOrdersOk_nil, rfl⟩ h1)
    split at hm
    · simp at hm
    · simp only [Except.ok.injEq, Option.some.injEq] at hm
      rw [← hm]
      exact hInv.1

/-- A single segment with order `0` satisfies the invariant. -/
theorem segOrdersOk_singleton0 (s : ContentSegment) (h : s.order = 0) :
    segOrdersOk [s] := by
  simp [segOrdersOk, h]
  decide

/-- All messages produced by one request step satisfy the ordering
invariant. -/
theorem jsonRequestStep_ordersOk (request : Json) (msgs : List ChatMessage)
    (hstep : jsonRequestStep request = Except.ok msgs) :
    ∀ m ∈ msgs, segOrdersOk m.contentSegments := by
  unfold jsonRequestStep at hstep
  cases h1 : jsAccess (some request) "message" with
  | error e =>
    rw [h1, exceptBind_error] at hstep
    exact Except.noConfusion hstep
  | ok msgJ =>
    rw [h1] at hstep
    repeat first
      | rw [exceptBind_ok] at hstep
      | dsimp only at hstep
    cases h2 : jsAccess msgJ "text" with
    | error e =>
      rw [h2, exceptBind_error] at hstep
      exact Except.noConfusion hstep
    | ok textJ =>
      rw [h2] at hstep
      repeat first
        | rw [exceptBind_ok] at hstep
        | dsimp only at hstep
      split at hstep
      · -- user message emitted
        cases h3 : parseVariableData (jsField request "variableData") with
        | error e =>
          rw [h3, exceptBind_error] at hstep
          exact Except.noConfusion hstep
        | ok vd =>
          rw [h3] at hstep
          repeat first
            | rw [exceptBind_ok] at hstep
            | dsimp only at hstep
          split at hstep
          · cases h4 : parseResponse (jsToStringO (jsField request "requestId"))
              (jsIndexItems (jsField request "response"))
              (jsAccessOpt (jsAccessOpt (jsField request "result") "metadata") "toolCallResults")
              (jsAccessOpt (jsAccessOpt (jsField request "result") "metadata") "toolCallRounds") with
            | error e =>
              rw [h4, exceptBind_error] at hstep
              exact Except.noConfusion hstep
            | ok respMsg =>
              rw [h4] at hstep
              repeat first
                | rw [exceptBind_ok] at hstep
                | dsimp only at hstep
              cases respMsg with
              | some m2 =>
                refine (Except.ok.inj hstep) ▸ ?_
                intro m hm
                simp only [List.mem_append, List.mem_singleton] at hm
                rcases hm with hm | hm
                · subst hm
                  exact segOrdersOk_singleton0 _ rfl
                · subst hm
                  exact parseResponse_ordersOk _ _ _ _ _ h4
              | none =>
                refine (Except.ok.inj hstep) ▸ ?_
                intro m hm
                simp only [List.mem_singleton] at hm
                subst hm
                exact segOrdersOk_singleton0 _ rfl
          · refine (Except.ok.inj hstep) ▸ ?_
            intro m hm
            simp only [List.mem_singleton] at hm
            subst hm
            exact segOrdersOk_singleton0 _ rfl
      · -- no user message
        repeat first
          | rw [exceptBind_ok] at hstep
          | dsimp only at hstep
        split at hstep
        · cases h4 : parseResponse (jsToStringO (jsField request "requestId"))
            (jsIndexItems (jsField request "response"))
            (jsAccessOpt (jsAccessOpt (jsField request "result") "metadata") "toolCallResults")
            (jsAccessOpt (jsAccessOpt (jsField request "result") "metadata") "toolCallRounds") with
          | error e =>
            rw [h4, exceptBind_error] at hstep
            exact Except.noConfusion hstep
          | ok respMsg =>
            rw [h4] at hstep
            repeat first
              | rw [exceptBind_ok] at hstep
              | dsimp only at hstep
            cases respMsg with
            | some m2 =>
              refine (Except.ok.inj hstep) ▸ ?_
              intro m hm
              simp only [List.nil_append, List.mem_singleton] at hm
              subst hm
              exact parseResponse_ordersOk _ _ _ _ _ h4
            | none =>
              refine (Except.ok.inj hstep) ▸ ?_
              intro m hm
              simp at hm
        · refine (Except.ok.inj hstep) ▸ ?_
          intro m hm
          simp at hm

/-- The request fold keeps all messages satisfying the ordering
invariant. -/
theorem jsonFold_ordersOk :
    ∀ (reqs : List Json) (acc msgs : List ChatMessage),
    (∀ m ∈ acc, segOrdersOk m.contentSegments) →
    (reqs.foldlM (fun acc req => do
      let more ← jsonRequestStep req
      pure (acc ++ more)) acc) = Except.ok msgs →
    ∀ m ∈ msgs, segOrdersOk m.contentSegments := by
  intro reqs
  induction reqs with
  | nil =>
    intro acc msgs hacc hstep
    simp only [List.foldlM_nil] at hstep
    exact (Except.ok.inj hstep) ▸ hacc
  | cons r t ih =>
    intro acc msgs hacc hstep
    rw [List.foldlM_cons] at hstep
    cases h1 : jsonRequestStep r with
    | error e =>
      rw [h1] at hstep
      simp only [exceptBind_error] at hstep
      exact Except.noConfusion hstep
    | ok more =>
      rw [h1] at hstep
      simp only [exceptBind_ok] at hstep
      refine ih (acc ++ more) msgs ?_ hstep
      intro m hm
      rcases List.mem_append.mp hm with hm | hm
      · exact hacc m hm
      · exact jsonRequestStep_ordersOk r more h1 m hm

/-- Every session returned by the JSON export parser satisfies the
per-message ordering invariant. -/
theorem parseJsonLog_ordersOk (input : String) (sess : ParsedSession)
    (hok : okSession (parseJsonLog input) = some sess) : sessionOrdersOk sess := by
  unfold parseJsonLog okSession at hok
  cases hrun : jsonRun input with
  | error e => rw [hrun] at hok; exact Option.noConfusion hok
  | ok messages =>
    rw [hrun] at hok
    dsimp only at hok
    have hsess := Option.some.inj hok
    intro m hm
    rw [← hsess] at hm
    unfold jsonRun at hrun
    cases hp : jsonParse input with
    | none => rw [hp] at hrun; exact Except.noConfusion hrun
    | some data =>
      rw [hp] at hrun
      dsimp only at hrun
      unfold jsonRunData at hrun
      cases h1 : jsAccess (some data) "requests" with
      | error e =>
        rw [h1, exceptBind_error] at hrun
        exact Except.noConfusion hrun
      | ok reqsV =>
        rw [h1, exceptBind_ok] at hrun
        try dsimp only at hrun
        cases h2 : jsIterate reqsV with
        | error e =>
          rw [h2, exceptBind_error] at hrun
          exact Except.noConfusion hrun
        | ok reqs =>
          rw [h2, exceptBind_ok] at hrun
          try dsimp only at hrun
          exact jsonFold_ordersOk reqs [] messages (by intro m hm; simp at hm) hrun m hm

/-- The ordering part of the chatreplay per-prompt invariant. -/
def CInv (st : CState) : Prop :=
  segOrdersOk st.segs ∧ st.order = st.segs.length

/-- The invariant only depends on the segments and counter. -/
theorem CInv_of_eq {st st' : CState} (h : CInv st)
    (hs : st'.segs = st.segs) (ho : st'.order = st.order) : CInv st' := by
  refine ⟨?_, ?_⟩
  · rw [hs]; exact h.1
  · rw [ho, hs]; exact h.2

/-- `pushCSeg` preserves the invariant. -/
theorem CInv_push (st : CState) (mk : Nat → ContentSegment)
    (hmk : (mk st.order).order = st.order) (h : CInv st) : CInv (pushCSeg st mk) := by
  refine ⟨segOrdersOk_append _ _ h.1 (by rw [hmk, h.2]), ?_⟩
  simp [pushCSeg, h.2]

/-- `flushC` preserves the invariant. -/
theorem CInv_flush (st : CState) (h : CInv st) : CInv (flushC st) := by
  unfold flushC
  dsimp only
  split
  · exact CInv_of_eq (CInv_push st (ContentSegment.text _) rfl h) rfl rfl
  · exact h

/-- Generic invariant preservation through `List.foldlM` in the
`Except` monad. -/
theorem exceptFoldlM_inv {σ α : Type} (P : σ → Prop) (f : σ → α → Except Unit σ)
    (hf : ∀ s a s', P s → f s a = Except.ok s' → P s') :
    ∀ (l : List α) (s s' : σ), P s → l.foldlM f s = Except.ok s' → P s' := by
  intro l
  induction l with
  | nil =>
    intro s s' hs hstep
    simp only [List.foldlM_nil] at hstep
    exact (Except.ok.inj hstep) ▸ hs
  | cons a t ih =>
    intro s s' hs hstep
    rw [List.foldlM_cons] at hstep
    cases h1 : f s a with
    | error e =>
      rw [h1] at hstep
      simp only [exceptBind_error] at hstep
      exact Except.noConfusion hstep
    | ok s2 =>
      rw [h1] at hstep
      simp only [exceptBind_ok] at hstep
      exact ih s2 s' (hf s a s2 hs h1) hstep

/-- `pure`-then-bind computes in the `Except` monad. -/
theorem exceptPure_bind {α β : Type} (a : α) (f : α → Except Unit β) :
    ((pure a : Except Unit α) >>= f) = f a := rfl

/-- One thinking-item step preserves the invariant. -/
theorem CInv_chatThinkItemStep (s : CState) (item : Json) (s' : CState) (hs : CInv s)
    (hstep : chatThinkItemStep s item = Except.ok s') : CInv s' := by
  unfold chatThinkItemStep at hstep
  cases h1 : thinkingTextOf item with
  | error e =>
    rw [h1, exceptBind_error] at hstep
    exact Except.noConfusion hstep
  | ok th =>
    rw [h1, exceptBind_ok] at hstep
    cases th with
    | some text => exact (Except.ok.inj hstep) ▸ CInv_push s _ rfl hs
    | none => exact (Except.ok.inj hstep) ▸ hs

/-- One request-message step preserves the invariant. -/
theorem CInv_chatMsgStep (s : CState) (msg : Json) (s' : CState) (hs : CInv s)
    (hstep : chatMsgStep s msg = Except.ok s') : CInv s' := by
  unfold chatMsgStep at hstep
  cases h1 : jsAccess (some msg) "content" with
  | error e =>
    rw [h1, exceptBind_error] at hstep
    exact Except.noConfusion hstep
  | ok contentV =>
    rw [h1, exceptBind_ok] at hstep
    split at hstep
    · exact exceptFoldlM_inv CInv chatThinkItemStep
        (fun a b c d e => CInv_chatThinkItemStep a b c d e) _ _ _ hs hstep
    · exact (Except.ok.inj hstep) ▸ hs

/-- One chatreplay log entry preserves the invariant. -/
theorem CInv_chatLogStep (st st' : CState) (log : Json) (h : CInv st)
    (hstep : chatLogStep st log = Except.ok st') : CInv st' := by
  unfold chatLogStep at hstep
  cases hk : jsAccess (some log) "kind" with
  | error e =>
    rw [hk, exceptBind_error] at hstep
    exact Except.noConfusion hstep
  | ok kind =>
    rw [hk] at hstep
    repeat first
      | rw [exceptBind_ok] at hstep
      | rw [exceptPure_bind] at hstep
      | dsimp only at hstep
    split at hstep
    · -- ChatMLSuccess branch
      have hf1 : CInv (flushC st) := CInv_flush st h
      split at hstep
      · cases h2 : jsIterate (jsAccessOpt (jsField log "response") "content") with
        | error e =>
          rw [h2] at hstep
          repeat first
            | rw [exceptBind_error] at hstep
            | dsimp only at hstep
          exact Except.noConfusion hstep
        | ok items =>
          rw [h2] at hstep
          repeat first
            | rw [exceptBind_ok] at hstep
            | rw [exceptPure_bind] at hstep
            | dsimp only at hstep
          cases h3 : items.foldlM chatThinkItemStep (flushC st) with
          | error e =>
            rw [h3] at hstep
            repeat first
              | rw [exceptBind_error] at hstep
              | dsimp only at hstep
            exact Except.noConfusion hstep
          | ok st2 =>
            rw [h3] at hstep
            repeat first
              | rw [exceptBind_ok] at hstep
              | rw [exceptPure_bind] at hstep
              | dsimp only at hstep
            have hInv2 : CInv st2 :=
              exceptFoldlM_inv CInv chatThinkItemStep
                (fun a b c d e => CInv_chatThinkItemStep a b c d e) items _ st2 hf1 h3
            split at hstep
            · cases h4 : jsIterate (jsAccessOpt (jsField log "requestMessages") "messages") with
              | error e =>
                rw [h4] at hstep
                repeat first
                  | rw [exceptBind_error] at hstep
                  | dsimp only at hstep
                exact Except.noConfusion hstep
              | ok msgs =>
                rw [h4] at hstep
                repeat first
                  | rw [exceptBind_ok] at hstep
                  | rw [exceptPure_bind] at hstep
                  | dsimp only at hstep
                cases h5 : msgs.foldlM chatMsgStep st2 with
                | error e =>
                  rw [h5] at hstep
                  repeat first
                    | rw [exceptBind_error] at hstep
                    | dsimp only at hstep
                  exact Except.noConfusion hstep
                | ok st3 =>
                  rw [h5] at hstep
                  repeat first
                    | rw [exceptBind_ok] at hstep
                    | rw [exceptPure_bind] at hstep
                    | dsimp only at hstep
                  have hInv3 : CInv st3 :=
                    exceptFoldlM_inv CInv chatMsgStep
                      (fun a b c d e => CInv_chatMsgStep a b c d e) msgs _ st3 hInv2 h5
                  split at hstep
                  · split at hstep
                    · exact (Except.ok.inj hstep) ▸ CInv_of_eq hInv3 rfl rfl
                    · exact (Except.ok.inj hstep) ▸ hInv3
                  · exact (Except.ok.inj hstep) ▸ hInv3
            · split at hstep
              · split at hstep
                · exact (Except.ok.inj hstep) ▸ CInv_of_eq hInv2 rfl rfl
                · exact (Except.ok.inj hstep) ▸ hInv2
              · exact (Except.ok.inj hstep) ▸ hInv2
      · split at hstep
        · cases h4 : jsIterate (jsAccessOpt (jsField log "requestMessages") "messages") with
          | error e =>
            rw [h4] at hstep
            repeat first
              | rw [exceptBind_error] at hstep
              | dsimp only at hstep
            exact Except.noConfusion hstep
          | ok msgs =>
            rw [h4] at hstep
            repeat first
              | rw [exceptBind_ok] at hstep
              | rw [exceptPure_bind] at hstep
              | dsimp only at hstep
            cases h5 : msgs.foldlM chatMsgStep (flushC st) with
            | error e =>
              rw [h5] at hstep
              repeat first
                | rw [exceptBind_error] at hstep
                | dsimp only at hstep
              exact Except.noConfusion hstep
            | ok st3 =>
              rw [h5] at hstep
              repeat first
                | rw [exceptBind_ok] at hstep
                | dsimp only at hstep
              have hInv3 : CInv st3 :=
                exceptFoldlM_inv CInv chatMsgStep
                  (fun a b c d e => CInv_chatMsgStep a b c d e) msgs _ st3 hf1 h5
              split at hstep
              · split at hstep
                · exact (Except.ok.inj hstep) ▸ CInv_of_eq hInv3 rfl rfl
                · exact (Except.ok.inj hstep) ▸ hInv3
              · exact (Except.ok.inj hstep) ▸ hInv3
        · split at hstep
          · split at hstep
            · exact (Except.ok.inj hstep) ▸ CInv_of_eq hf1 rfl rfl
            · exact (Except.ok.inj hstep) ▸ hf1
          · exact (Except.ok.inj hstep) ▸ hf1
    · -- toolCall branch
      split at hstep
      · split at hstep
        · split at hstep
          · exact (Except.ok.inj hstep) ▸
              CInv_of_eq (⟨segOrdersOk_listModify _ _ _ (CInv_flush st h).1,
                by simpa [listModify_length] using (CInv_flush st h).2⟩) rfl rfl
          · refine (Except.ok.inj hstep) ▸ ?_
            split
            · exact CInv_of_eq (CInv_push _ _ rfl (CInv_flush st h)) rfl rfl
            · exact CInv_push _ _ rfl (CInv_flush st h)
        · exact (Except.ok.inj hstep) ▸ CInv_flush st h
      · exact (Except.ok.inj hstep) ▸ h

/-- One chatreplay prompt keeps all messages satisfying the ordering
invariant. -/
theorem chatPromptStep_ordersOk (messages : List ChatMessage) (prompt : Json)
    (msgs : List ChatMessage)
    (hacc : ∀ m ∈ messages, segOrdersOk m.contentSegments)
    (hstep : chatPromptStep messages prompt = Except.ok msgs) :
    ∀ m ∈ msgs, segOrdersOk m.contentSegments := by
  unfold chatPromptStep at hstep
  cases h1 : jsAccess (some prompt) "prompt" with
  | error e =>
    rw [h1, exceptBind_error] at hstep
    exact Except.noConfusion hstep
  | ok promptText =>
    rw [h1] at hstep
    repeat first
      | rw [exceptBind_ok] at hstep
      | rw [exceptPure_bind] at hstep
      | dsimp only at hstep
    cases h2 : jsAccess (some prompt) "logs" with
    | error e =>
      rw [h2] at hstep
      repeat first
        | rw [exceptBind_error] at hstep
        | dsimp only at hstep
      exact Except.noConfusion hstep
    | ok logsV =>
      rw [h2] at hstep
      repeat first
        | rw [exceptBind_ok] at hstep
        | rw [exceptPure_bind] at hstep
        | dsimp only at hstep
      cases h3 : jsIterate logsV with
      | error e =>
        rw [h3] at hstep
        repeat first
          | rw [exceptBind_error] at hstep
          | dsimp only at hstep
        exact Except.noConfusion hstep
      | ok logs =>
        rw [h3] at hstep
        repeat first
          | rw [exceptBind_ok] at hstep
          | rw [exceptPure_bind] at hstep
          | dsimp only at hstep
        cases h4 : logs.foldlM chatLogStep
            { segs := [], order := 0, acc := "", lastIdx := none } with
        | error e =>
          rw [h4] at hstep
          repeat first
            | rw [exceptBind_error] at hstep
            | dsimp only at hstep
          exact Except.noConfusion hstep
        | ok stF =>
          rw [h4] at hstep
          repeat first
            | rw [exceptBind_ok] at hstep
            | rw [exceptPure_bind] at hstep
            | dsimp only at hstep
          have hInvF : CInv stF :=
            exceptFoldlM_inv CInv chatLogStep
              (fun a b c d e => CInv_chatLogStep a c b d e) logs _ stF
              ⟨by simp [segOrdersOk], rfl⟩ h4
          have hInvF2 : CInv (flushC stF) := CInv_flush stF hInvF
          split at hstep
          · refine (Except.ok.inj hstep) ▸ ?_
            intro m hm
            simp only [List.append_assoc, List.mem_append, List.mem_singleton] at hm
            rcases hm with hm | hm | hm
            · exact hacc m hm
            · subst hm
              exact segOrdersOk_singleton0 _ rfl
            · subst hm
              exact hInvF2.1
          · refine (Except.ok.inj hstep) ▸ ?_
            intro m hm
            simp only [List.mem_append, List.mem_singleton] at hm
            rcases hm with hm | hm
            · exact hacc m hm
            · subst hm
              exact segOrdersOk_singleton0 _ rfl

/-- `ChatReplayParser.parse`: every message of a successfully parsed
chatreplay session satisfies the ordering invariant. -/
theorem parseChatReplayLog_ordersOk (input : String) (sess : ParsedSession)
    (hok : okSession (parseChatReplayLog input) = some sess) : sessionOrdersOk sess := by
  unfold parseChatReplayLog okSession at hok
  cases hrun : chatRun input with
  | error e => rw [hrun] at hok; exact Option.noConfusion hok
  | ok messages =>
    rw [hrun] at hok
    dsimp only at hok
    have hsess := Option.some.inj hok
    intro m hm
    rw [← hsess] at hm
    unfold chatRun at hrun
    cases hp : jsonParse input with
    | none => rw [hp] at hrun; exact Except.noConfusion hrun
    | some data =>
      rw [hp] at hrun
      dsimp only at hrun
      unfold chatRunData at hrun
      cases h1 : jsAccess (some data) "prompts" with
      | error e =>
        rw [h1, exceptBind_error] at hrun
        exact Except.noConfusion hrun
      | ok promptsV =>
        rw [h1, exceptBind_ok] at hrun
        try dsimp only at hrun
        cases h2 : jsIterate promptsV with
        | error e =>
          rw [h2, exceptBind_error] at hrun
          exact Except.noConfusion hrun
        | ok prompts =>
          rw [h2, exceptBind_ok] at hrun
          try dsimp only at hrun
          exact exceptFoldlM_inv (fun l => ∀ m ∈ l, segOrdersOk m.contentSegments)
            chatPromptStep (fun a b c d e => chatPromptStep_ordersOk a b c d e)
            prompts [] messages (by intro m hm; simp at hm) hrun m hm

/-- A JSON-export document with a single plain user request. -/
def c1JsonDoc : String := "\x7b\"requests\":[\x7b\"message\":\x7b\"text\":\"hi\"\x7d\x7d]\x7d"

/-- A chatreplay document with a single prompt and no logs. -/
def c1ChatDoc : String := "\x7b\"prompts\":[\x7b\"prompt\":\"q\",\"logs\":[]\x7d]\x7d"

/-- The empty session, used as a `getD` default. -/
def sessDefault : ParsedSession :=
  { messages := [], metadata := { totalMessages := 0, toolCallCount := 0, fileCount := 0 } }

/-- The session parsed from `c1JsonDoc`. -/
def c1jSess : ParsedSession := (okSession (parseJsonLog c1JsonDoc)).getD sessDefault

/-- The session parsed from `c1ChatDoc`. -/
def c1cSess : ParsedSession := (okSession (parseChatReplayLog c1ChatDoc)).getD sessDefault

/-- C1: in every `ParsedSession` returned by any of the three parsers
(text log, JSON export, chatreplay), each message's `contentSegments`
carry `order` values that are exactly `0, 1, ..., N-1` in list
position order. -/
theorem claim_C1_segment_orders (input : String) :
    sessionOrdersOk (copilotParse input) ∧
    (∀ sess, okSession (parseJsonLog input) = some sess → sessionOrdersOk sess) ∧
    (∀ sess, okSession (parseChatReplayLog input) = some sess → sessionOrdersOk sess) :=
  ⟨copilotParse_ordersOk input,
   fun sess h => parseJsonLog_ordersOk input sess h,
   fun sess h => parseChatReplayLog_ordersOk input sess h⟩

/-- C1 witness: the three parsers on concrete inputs. -/
theorem claim_C1_segment_orders_witness :
    okSession (parseJsonLog c1JsonDoc) = some c1jSess ∧
    okSession (parseChatReplayLog c1ChatDoc) = some c1cSess ∧
    sessionOrdersOk (copilotParse "hello world") ∧
    sessionOrdersOk c1jSess ∧ sessionOrdersOk c1cSess :=
  ⟨rfl, rfl,
   (claim_C1_segment_orders "hello world").1,
   (claim_C1_segment_orders c1JsonDoc).2.1 c1jSess rfl,
   (claim_C1_segment_orders c1ChatDoc).2.2 c1cSess rfl⟩

/-- A document whose `exportedAt` is a truthy non-scalar (an array). -/
def c3Doc : String := "\x7b\"prompts\":[],\"exportedAt\":[0]\x7d"

/-- C3 (amended: the `exportedAt` probe is plain truthiness, not
restricted to scalars): `detectLogFormat` computes exactly the spec's
algorithm and never throws. -/
theorem claim_C3_detector (s : String) :
    detectLogFormat s = detectLogFormatSpecAmended s := by
  unfold detectLogFormat detectLogFormatSpecAmended
  dsimp only
  by_cases hb : strStartsWith (jsTrim s) "\x7b"
  · simp only [hb, Bool.not_true, Bool.false_eq_true, if_false, if_true]
    cases hp : jsonParse s with
    | none => rfl
    | some v =>
      dsimp only
      generalize jsField v "prompts" = pr
      generalize jsField v "requests" = rq
      cases pr with
      | none =>
        cases rq with
        | none => simp [jsTruthy]
        | some j => cases j <;> simp [jsTruthy]
      | some j =>
        cases rq with
        | none => cases j <;> simp [jsTruthy]
        | some j2 => cases j <;> cases j2 <;> simp [jsTruthy]
  · simp [hb]

/-- C3 counterexample: a truthy array `exportedAt` is accepted by the
code but excluded by the claim's `scalar` qualification. -/
theorem claim_C3_counterexample :
    detectLogFormat c3Doc = LogFormat.chatreplay ∧
    detectLogFormatSpecClaim c3Doc = LogFormat.text := by
  refine ⟨?_, ?_⟩ <;> decide

/-- C6: the normalized-result-count rule of the spec is exactly what
the JSON export parser computes (on its string-or-absent outputs) and
exactly what the ChatReplay parser computes; the extra
`output === '0 results'` disjunct of the JSON parser and of the spec
wording is subsumed by the `<n> result(s)` match. -/
theorem claim_C6_count_rule (out : Option String) (fb : String) :
    jsonDeriveCount (out.map Json.str) fb = Except.ok (sharedCountRule out fb) ∧
    chatDeriveCount out fb = sharedCountRule out fb := by
  constructor
  · unfold jsonDeriveCount sharedCountRule
    cases out with
    | none => simp [jsTruthy, exceptBind_ok]
    | some s =>
      by_cases hs : s = ""
      · subst hs
        simp [jsTruthy, exceptBind_ok]
      · by_cases h0 : s = "0 results"
        · subst h0
          simp [jsTruthy, exceptBind_ok]
        · simp [jsTruthy, exceptBind_ok, hs, h0]
  · unfold chatDeriveCount sharedCountRule
    cases out with
    | none => simp
    | some s =>
      by_cases hs : s = ""
      · subst hs
        simp
      · by_cases h0 : s = "0 results"
        · subst h0
          have hc : countResultsMatch "0 results" = some 0 := by decide
          simp [hc]
        · simp [hs, h0]

/-- A chatreplay document (array `prompts`, truthy `exportedAt`) whose
single prompt carries one ChatMLSuccess response. -/
def c2Doc : String :=
  "\x7b\"exportedAt\":\"2025\",\"prompts\":[\x7b\"prompt\":\"q\",\"logs\":[\x7b\"kind\":\"request\",\"type\":\"ChatMLSuccess\",\"response\":\x7b\"message\":[\"ans\"]\x7d\x7d]\x7d]\x7d"

/-- A chatreplay document with two consecutive prompts of identical
text, each with its own response. -/
def c4Doc : String :=
  "\x7b\"prompts\":[\x7b\"prompt\":\"same\",\"logs\":[\x7b\"kind\":\"request\",\"type\":\"ChatMLSuccess\",\"response\":\x7b\"message\":[\"A1\"]\x7d\x7d]\x7d,\x7b\"prompt\":\"same\",\"logs\":[\x7b\"kind\":\"request\",\"type\":\"ChatMLSuccess\",\"response\":\x7b\"message\":[\"A2\"]\x7d\x7d]\x7d]\x7d"

/-- A chatreplay document whose response content holds two thinking
entries sharing the id `t1`. -/
def c5ChatDoc : String :=
  "\x7b\"prompts\":[\x7b\"prompt\":\"q\",\"logs\":[\x7b\"kind\":\"request\",\"type\":\"ChatMLSuccess\",\"response\":\x7b\"message\":[],\"content\":[\x7b\"type\":2,\"value\":\x7b\"type\":\"thinking\",\"thinking\":\x7b\"id\":\"t1\",\"text\":\"A\"\x7d\x7d\x7d,\x7b\"type\":2,\"value\":\x7b\"type\":\"thinking\",\"thinking\":\x7b\"id\":\"t1\",\"text\":\"B\"\x7d\x7d\x7d]\x7d\x7d]\x7d]\x7d"

/-- A JSON export whose response holds two thinking items sharing the
id `t1`. -/
def c5JsonDoc : String :=
  "\x7b\"requests\":[\x7b\"message\":\x7b\"text\":\"hi\"\x7d,\"response\":[\x7b\"kind\":\"thinking\",\"value\":\"A\",\"id\":\"t1\"\x7d,\x7b\"kind\":\"thinking\",\"value\":\"B\",\"id\":\"t1\"\x7d]\x7d]\x7d"

/-- A text log whose third line is the combined search-count line of
the C7 claim. -/
def c7Doc : String :=
  "digitarald: q\nGitHub Copilot: a\nSearched for regex `X`, 6 results"

set_option maxRecDepth 40000

/-- C2: the entry point does NOT dispatch chatreplay-detected inputs to
the ChatReplay parser: on a document the detector classifies as
`chatreplay`, `parseLog` falls through to the text parser and yields an
empty session, while the ChatReplay parser yields the two expected
messages. -/
theorem claim_C2_dispatch :
    detectLogFormat c2Doc = LogFormat.chatreplay ∧
    parseLog c2Doc = Except.ok (copilotParse c2Doc) ∧
    (okSession (parseLog c2Doc)).map (fun s => s.messages.length) = some 0 ∧
    (okSession (parseChatReplayLog c2Doc)).map (fun s => s.messages.length) = some 2 := by
  refine ⟨by decide, rfl, by decide, by decide⟩

/-- C4: the ChatReplay parser does NOT suppress consecutive duplicate
prompts: two consecutive prompts with identical text produce two user
messages (four messages in all), not one. -/
theorem claim_C4_dup_prompts :
    (okSession (parseChatReplayLog c4Doc)).map userMsgCount = some 2 ∧
    (okSession (parseChatReplayLog c4Doc)).map (fun s => s.messages.length) = some 4 := by
  refine ⟨by decide, by decide⟩

/-- C5: the ChatReplay parser does NOT deduplicate thinking entries by
id — two entries sharing one id yield two `thinking` segments — while
the JSON export parser (same shape of duplicate) yields one. -/
theorem claim_C5_thinking_dedup :
    (okSession (parseChatReplayLog c5ChatDoc)).map thinkingCount = some 2 ∧
    (okSession (parseJsonLog c5JsonDoc)).map thinkingCount = some 1 := by
  refine ⟨by decide, by decide⟩

/-- C7: the text parser turns the claimed line into exactly one
`search` call with output `6 results`, but leaves
`normalizedResultCount` absent rather than `6`. -/
theorem claim_C7_text_search_count :
    (sessionToolCalls (copilotParse c7Doc)).map (fun tc => tc.core.type) =
      [ToolCallType.search] ∧
    (sessionToolCalls (copilotParse c7Doc)).map (fun tc => jsStrOf tc.core.output) =
      ["6 results"] ∧
    (sessionToolCalls (copilotParse c7Doc)).map (fun tc => tc.core.normalizedResultCount) =
      [none] := by
  refine ⟨by decide, by decide, by decide⟩

/-- C8: each structured parser has the single classified invalid-format
error as its only failure mode, no session accompanies a failure, and a
failing `JSON.parse` of the document produces exactly that error in
each parser. -/
theorem claim_C8_classified_errors (s : String) :
    (∀ e, parseJsonLog s = Except.error e → e = "Invalid JSON chat export format") ∧
    (∀ e, parseChatReplayLog s = Except.error e → e = "Invalid chatreplay format") ∧
    ((jsonParse s).isNone = true →
      parseJsonLog s = Except.error "Invalid JSON chat export format" ∧
      parseChatReplayLog s = Except.error "Invalid chatreplay format") := by
  refine ⟨?_, ?_, ?_⟩
  · intro e he
    unfold parseJsonLog at he
    cases h : jsonRun s with
    | ok m => rw [h] at he; exact Except.noConfusion he
    | error u => rw [h] at he; exact (Except.error.inj he).symm
  · intro e he
    unfold parseChatReplayLog at he
    cases h : chatRun s with
    | ok m => rw [h] at he; exact Except.noConfusion he
    | error u => rw [h] at he; exact (Except.error.inj he).symm
  · intro hp
    have hnone : jsonParse s = none := by
      cases h : jsonParse s with
      | none => rfl
      | some v => rw [h] at hp; simp at hp
    constructor
    · unfold parseJsonLog jsonRun
      rw [hnone]
    · unfold parseChatReplayLog chatRun
      rw [hnone]

/-- C8 witness: a non-JSON input fails both parsers with exactly the
classified messages. -/
theorem claim_C8_witness :
    (jsonParse "nope").isNone = true ∧
    parseJsonLog "nope" = Except.error "Invalid JSON chat export format" ∧
    parseChatReplayLog "nope" = Except.error "Invalid chatreplay format" :=
  ⟨by decide, ((claim_C8_classified_errors "nope").2.2 (by decide)).1,
    ((claim_C8_classified_errors "nope").2.2 (by decide)).2⟩

/-- When the `edits` value iterates, the collected first-entry edits
are exactly `editsOfGroupItem`. -/
theorem editsOfGroupItem_of_iterate (item : Json) (eas : List Json)
    (h : jsIterate (jsField item "edits") = Except.ok eas) :
    eas.filterMap (editsFilterF (extractFilePath (jsField item "uri"))) =
      editsOfGroupItem item := by
  unfold editsOfGroupItem
  cases hf : jsField item "edits" with
  | none =>
    rw [hf] at h
    exact Except.noConfusion h
  | some j =>
    rw [hf] at h
    cases j with
    | arr xs =>
      simp only [jsIterate] at h
      rw [Except.ok.inj h]
    | str s =>
      simp only [jsIterate] at h
      rw [← Except.ok.inj h]
      simp [List.filterMap_map, editsFilterF, Function.comp]
    | null => exact Except.noConfusion h
    | bool b => exact Except.noConfusion h
    | num n => exact Except.noConfusion h
    | obj fs => exact Except.noConfusion h

/-- C9 (amended: the scan stops only at the next substantive *text*
item; items of other kinds — tool invocations, thinking blocks — do not
stop it): `collectFileEdits` computes exactly the amended
specification. -/
theorem claim_C9_collect_edits (items : List Json) :
    collectFileEdits items = collectFileEditsSpec items := by
  induction items with
  | nil => rfl
  | cons item rest ih =>
    unfold collectFileEdits collectFileEditsSpec
    cases hv : jsAccess (some item) "value" with
    | error e =>
      simp only [exceptBind_error]
    | ok v =>
      simp only [exceptBind_ok]
      try dsimp only
      simp only [isEditGroupItem]
      cases hbrk : isBreakValue v with
      | true => simp [hbrk]
      | false =>
        simp only [hbrk, Bool.false_eq_true, if_false]
        by_cases hg : (isStrVal (jsField item "kind") "textEditGroup" &&
            jsTruthy (jsField item "uri") && jsTruthy (jsField item "edits")) = true
        case neg => rw [if_neg hg, if_neg hg]; exact ih
        case pos =>
          rw [if_pos hg, if_pos hg]
          cases hit : jsIterate (jsField item "edits") with
          | error e2 => simp [hit, exceptBind_error]
          | ok eas =>
            simp only [hit, exceptBind_ok]
            rw [ih]
            cases hm : collectFileEditsSpec rest with
            | error e3 => simp [hm, exceptBind_error]
            | ok more =>
              simp only [hm, exceptBind_ok]
              rw [editsOfGroupItem_of_iterate item eas hit]

/-- The C9 counterexample items: a `textEditGroup`, then a serialized
tool invocation, then another `textEditGroup`. -/
def c9Items : List Json :=
  [Json.obj [("kind", Json.str "textEditGroup"), ("uri", Json.str "file:///a.ts"),
     ("edits", Json.arr [Json.arr [Json.obj [("text", Json.str "AAA")]]])],
   Json.obj [("kind", Json.str "toolInvocationSerialized")],
   Json.obj [("kind", Json.str "textEditGroup"), ("uri", Json.str "file:///b.ts"),
     ("edits", Json.arr [Json.arr [Json.obj [("text", Json.str "BBB")]]])]]

/-- C9 counterexample: the code keeps collecting past an intervening
tool invocation; the claim's rule stops before it. -/
theorem claim_C9_counterexample :
    collectFileEdits c9Items = Except.ok
      [{ filePath := "/a.ts", text := "AAA", range := none },
       { filePath := "/b.ts", text := "BBB", range := none }] ∧
    collectFileEditsClaim c9Items =
      [{ filePath := "/a.ts", text := "AAA", range := none }] := ⟨rfl, rfl⟩

/-- Folding `+ g x` over a list is the sum of the mapped list. -/
theorem foldl_add_sum {α : Type} (g : α → Nat) :
    ∀ (l : List α) (n : Nat), l.foldl (fun acc x => acc + g x) n = n + (l.map g).sum := by
  intro l
  induction l with
  | nil => intro n; simp
  | cons a t ih => intro n; simp [List.foldl_cons, ih, Nat.add_assoc]

/-- The tool-call-count fold equals the specification count. -/
theorem countToolCallsFold_eq (msgs : List ChatMessage) :
    countToolCallsFold msgs = specToolCallCount msgs := by
  unfold countToolCallsFold specToolCallCount
  rw [foldl_add_sum (fun m => (m.contentSegments.filter ContentSegment.isTool).length) msgs 0]
  simp

/-- C10: every session of any of the three parsers has
`totalMessages = messages.length` and `toolCallCount` counting exactly
the top-level `tool_call` segments; the JSON export and ChatReplay
parsers always report `fileCount = 0`, the text parser reports the
total number of recorded file references. -/
theorem claim_C10_metadata (input : String) :
    ((copilotParse input).metadata.totalMessages = (copilotParse input).messages.length ∧
     (copilotParse input).metadata.toolCallCount =
       specToolCallCount (copilotParse input).messages ∧
     (copilotParse input).metadata.fileCount =
       specFileRefCount (copilotParse input).messages) ∧
    (∀ sess, okSession (parseJsonLog input) = some sess →
      sess.metadata.totalMessages = sess.messages.length ∧
      sess.metadata.toolCallCount = specToolCallCount sess.messages ∧
      sess.metadata.fileCount = 0) ∧
    (∀ sess, okSession (parseChatReplayLog input) = some sess →
      sess.metadata.totalMessages = sess.messages.length ∧
      sess.metadata.toolCallCount = specToolCallCount sess.messages ∧
      sess.metadata.fileCount = 0) := by
  refine ⟨⟨rfl, ?_, ?_⟩, ?_, ?_⟩
  · unfold copilotParse
    dsimp only
    rw [foldl_add_sum (fun (m : ChatMessage) =>
      (m.contentSegments.filter ContentSegment.isTool).length)]
    simp [specToolCallCount]
  · unfold copilotParse
    dsimp only
    rw [foldl_add_sum (fun (m : ChatMessage) => m.fileReferences.length)]
    simp [specFileRefCount]
  · intro sess h
    unfold parseJsonLog okSession at h
    cases hr : jsonRun input with
    | error e => rw [hr] at h; exact Option.noConfusion h
    | ok messages =>
      rw [hr] at h
      dsimp only at h
      have hs := Option.some.inj h
      subst hs
      exact ⟨rfl, countToolCallsFold_eq messages, rfl⟩
  · intro sess h
    unfold parseChatReplayLog okSession at h
    cases hr : chatRun input with
    | error e => rw [hr] at h; exact Option.noConfusion h
    | ok messages =>
      rw [hr] at h
      dsimp only at h
      have hs := Option.some.inj h
      subst hs
      exact ⟨rfl, countToolCallsFold_eq messages, rfl⟩

/-- C10 witness: the metadata equalities on concrete parses of each
format. -/
theorem claim_C10_metadata_witness :
    okSession (parseJsonLog c1JsonDoc) = some c1jSess ∧
    okSession (parseChatReplayLog c1ChatDoc) = some c1cSess ∧
    (copilotParse "hello world").metadata.totalMessages =
      (copilotParse "hello world").messages.length ∧
    c1jSess.metadata.toolCallCount = specToolCallCount c1jSess.messages ∧
    c1cSess.metadata.fileCount = 0 :=
  ⟨rfl, rfl, (claim_C10_metadata "hello world").1.1,
   ((claim_C10_metadata c1JsonDoc).2.1 c1jSess rfl).2.1,
   ((claim_C10_metadata c1ChatDoc).2.2 c1cSess rfl).2.2⟩
